import Mathlib

/-!
Verification of the kelicad-agent core (Rust sources under `src-tauri/src/`)
against its natural-language specification.

The Rust code is shallowly embedded: pure functions become Lean functions,
stateful handlers become explicit state-passing functions, machine integers
become `Nat`, floating-point values are represented symbolically by the byte
patterns / literals they were decoded from (none of the verified properties
depend on IEEE arithmetic), and calls into the environment (the spawned
simulator process, `serde_json` decoding, clocks, UUIDs) become explicit
parameters carrying their observed outcomes.
-/

namespace Kelicad

/-! ## Symbolic floating-point values

`f64` values flowing through the result codec are represented by how they
were obtained: an 8-byte little-endian pattern, a widened 4-byte pattern,
a magnitude `sqrt(re² + im²)` of two components, or a parsed ASCII literal.
The claims under verification concern lengths, units and error behaviour,
never IEEE arithmetic, so this representation is lossless for them. -/

inductive Val where
  | f64 (bits : Nat)
  | f32 (bits : Nat)
  | mag (re im : Val)
  | lit (s : String)
  deriving DecidableEq, Repr

/-! ## Protocol data types (`protocol.rs`) -/

structure Trace where
  name : String
  data : List Val
  unit : String
  deriving DecidableEq, Repr

/-- `SimulationResults` as constructed by `simulator.rs` (with the
`x_axis_label` field its constructors populate). -/
structure SimulationResults where
  time : List Val
  traces : List Trace
  analysisType : String
  xAxisLabel : Option String
  deriving DecidableEq, Repr

structure AgentCapabilities where
  ltspiceAvailable : Bool
  ngspiceAvailable : Bool
  supportedAnalyses : List String
  maxSimulationTime : Nat
  deriving DecidableEq, Repr

structure HandshakeRequest where
  id : String
  msgType : String
  origin : String
  version : String
  timestamp : Nat
  deriving DecidableEq, Repr

structure HandshakeResponse where
  id : String
  msgType : String
  timestamp : Nat
  success : Bool
  agentVersion : String
  ltspicePath : Option String
  capabilities : AgentCapabilities
  error : Option String
  deriving DecidableEq, Repr

structure SimulationRequest where
  id : String
  msgType : String
  netlist : String
  waveformQuality : String
  timeout : Option Nat
  timestamp : Nat
  deriving DecidableEq, Repr

structure SimulationResponse where
  id : String
  msgType : String
  requestId : String
  timestamp : Nat
  success : Bool
  results : Option SimulationResults
  error : Option String
  executionTime : Nat
  simulator : String
  deriving DecidableEq, Repr

structure SimulationProgress where
  id : String
  msgType : String
  requestId : String
  timestamp : Nat
  stage : String
  message : String
  deriving DecidableEq, Repr

structure PingMessage where
  id : String
  msgType : String
  timestamp : Nat
  deriving DecidableEq, Repr

structure PongResponse where
  id : String
  msgType : String
  timestamp : Nat
  status : String
  deriving DecidableEq, Repr

structure CancelRequest where
  id : String
  msgType : String
  requestId : String
  timestamp : Nat
  deriving DecidableEq, Repr

structure CancelResponse where
  id : String
  msgType : String
  requestId : String
  timestamp : Nat
  success : Bool
  deriving DecidableEq, Repr

structure GenericMessage where
  id : String
  msgType : String
  deriving DecidableEq, Repr

def ALLOWED_ORIGINS : List String :=
  ["https://kelicad.com", "https://www.kelicad.com",
   "http://localhost:3000", "http://127.0.0.1:3000"]

def AGENT_VERSION : String := "1.0.0"

/-- `is_origin_allowed`: exact membership in the fixed allow-list. -/
def isOriginAllowed (origin : String) : Bool :=
  ALLOWED_ORIGINS.contains origin

/-! ## Agent state (`main.rs` `AppState`) -/

structure AppState where
  ltspicePath : Option String
  isSimulating : Bool
  wsConnections : Nat
  simulationCount : Nat
  lastSimulationTime : Option Nat
  currentSimulationId : Option String
  cancelRequested : Bool
  currentProcessId : Nat
  deriving DecidableEq, Repr

/-! ## `handle_handshake` (`websocket.rs`)

UUIDs and clock reads are passed in as the parameters `respId` and `ts`. -/

def handleHandshake (req : HandshakeRequest) (st : AppState)
    (respId : String) (ts : Nat) : HandshakeResponse :=
  if ¬ isOriginAllowed req.origin then
    { id := respId, msgType := "handshake_response", timestamp := ts,
      success := false, agentVersion := AGENT_VERSION, ltspicePath := none,
      capabilities :=
        { ltspiceAvailable := false, ngspiceAvailable := false,
          supportedAnalyses := [], maxSimulationTime := 120 },
      error := some "Invalid origin" }
  else
    { id := respId, msgType := "handshake_response", timestamp := ts,
      success := true, agentVersion := AGENT_VERSION,
      ltspicePath := st.ltspicePath,
      capabilities :=
        { ltspiceAvailable := st.ltspicePath.isSome, ngspiceAvailable := false,
          supportedAnalyses := ["transient", "ac", "dc"],
          maxSimulationTime := 120 },
      error := none }

/-! ## `handle_simulate` (`websocket.rs`)

The call to `run_ltspice_simulation` and the concurrently mutable
cancellation flag are modelled by the parameters `runResult` (outcome of the
external run) and `cancelObserved` (value of `state.cancel_requested` as read
after the run returns).  `execTime` stands for the elapsed-time reads.
The `launched` field records whether the external simulation was started. -/

structure SimulateOutcome where
  response : SimulationResponse
  state : AppState
  launched : Bool
  deriving DecidableEq, Repr

def handleSimulate (req : SimulationRequest) (st : AppState)
    (runResult : Except String SimulationResults) (cancelObserved : Bool)
    (respId : String) (ts : Nat) (execTime : Nat) : SimulateOutcome :=
  if st.isSimulating then
    { response :=
        { id := respId, msgType := "simulation_result", requestId := req.id,
          timestamp := ts, success := false, results := none,
          error := some "Another simulation is already running",
          executionTime := 0, simulator := "ltspice" },
      state := st, launched := false }
  else
    match st.ltspicePath with
    | none =>
      { response :=
          { id := respId, msgType := "simulation_result", requestId := req.id,
            timestamp := ts, success := false, results := none,
            error := some "LTspice not found on this system",
            executionTime := 0, simulator := "ltspice" },
        state := st, launched := false }
    | some _ =>
      -- mark as simulating, record the job id, clear cancel flag and PID
      let st1 : AppState :=
        { st with isSimulating := true, currentSimulationId := some req.id,
                  cancelRequested := false, currentProcessId := 0 }
      -- the external run happens here; `cancelObserved` is the flag read after it
      -- un-mark and clear, on every path that launched
      let st2 : AppState :=
        { st1 with isSimulating := false, currentSimulationId := none,
                   cancelRequested := false, currentProcessId := 0 }
      if cancelObserved then
        { response :=
            { id := respId, msgType := "simulation_result", requestId := req.id,
              timestamp := ts, success := false, results := none,
              error := some "Simulation cancelled",
              executionTime := execTime, simulator := "ltspice" },
          state := st2, launched := true }
      else
        match runResult with
        | .ok results =>
          let st3 : AppState :=
            { st2 with simulationCount := st2.simulationCount + 1,
                       lastSimulationTime := some ts }
          { response :=
              { id := respId, msgType := "simulation_result", requestId := req.id,
                timestamp := ts, success := true, results := some results,
                error := none, executionTime := execTime, simulator := "ltspice" },
            state := st3, launched := true }
        | .error e =>
          { response :=
              { id := respId, msgType := "simulation_result", requestId := req.id,
                timestamp := ts, success := false, results := none,
                error := some e, executionTime := execTime, simulator := "ltspice" },
            state := st2, launched := true }

/-! ## `handle_cancel` (`websocket.rs`)

`kill_process` is fire-and-forget on the recorded PID; whether it was
attempted is returned as the third component. -/

def handleCancel (req : CancelRequest) (st : AppState)
    (respId : String) (ts : Nat) : CancelResponse × AppState × Bool :=
  match st.currentSimulationId with
  | some current =>
    if current = req.requestId then
      ({ id := respId, msgType := "cancel_response", requestId := req.requestId,
         timestamp := ts, success := true },
       { st with cancelRequested := true },
       st.currentProcessId ≠ 0)
    else
      ({ id := respId, msgType := "cancel_response", requestId := req.requestId,
         timestamp := ts, success := false }, st, false)
  | none =>
    ({ id := respId, msgType := "cancel_response", requestId := req.requestId,
       timestamp := ts, success := false }, st, false)

/-! ## The per-connection message loop (`handle_connection`)

One iteration of the loop on an inbound text message.  `serde_json` decoding
is modelled by an `InboundText` record carrying, for one wire text, the
outcome of the generic decode and of each type-specific decode (a failed
decode is `none`).  The crucial control-flow fact mirrored here: a failed
generic decode hits `continue` (message dropped, loop keeps running), while
a failed type-specific decode is propagated with `?`, which returns from
`handle_connection` and ends the connection. -/

structure InboundText where
  generic : Option GenericMessage
  handshakeBody : Option HandshakeRequest
  simulateBody : Option SimulationRequest
  pingBody : Option PingMessage
  cancelBody : Option CancelRequest
  deriving Repr

inductive OutMsg where
  | handshake (r : HandshakeResponse)
  | pong (r : PongResponse)
  | cancel (r : CancelResponse)
  deriving DecidableEq, Repr

inductive StepAction where
  /-- a response is sent back on the socket; the loop continues -/
  | reply (m : OutMsg)
  /-- the message is logged and ignored; the loop continues -/
  | dropped
  /-- a progress message is sent and the job is spawned; the loop continues -/
  | progressThenSpawn (p : SimulationProgress) (req : SimulationRequest)
  /-- a `?` error propagates out of `handle_connection`: the loop ends and
      the connection is closed -/
  | fatal
  deriving DecidableEq, Repr

def processTextMessage (handshakeComplete : Bool) (st : AppState)
    (m : InboundText) (respId : String) (ts : Nat) : StepAction × Bool :=
  match m.generic with
  | none => (.dropped, handshakeComplete)
  | some g =>
    if g.msgType = "handshake" then
      match m.handshakeBody with
      | none => (.fatal, handshakeComplete)
      | some req =>
        let resp := handleHandshake req st respId ts
        (.reply (.handshake resp), resp.success)
    else if g.msgType = "simulate" then
      if ¬ handshakeComplete then (.dropped, handshakeComplete)
      else
        match m.simulateBody with
        | none => (.fatal, handshakeComplete)
        | some req =>
          (.progressThenSpawn
            { id := respId, msgType := "simulation_progress",
              requestId := req.id, timestamp := ts, stage := "preparing",
              message := "Preparing simulation..." } req,
           handshakeComplete)
    else if g.msgType = "ping" then
      match m.pingBody with
      | none => (.fatal, handshakeComplete)
      | some _ =>
        (.reply (.pong
          { id := respId, msgType := "pong", timestamp := ts,
            status := if st.isSimulating then "busy" else "ready" }),
         handshakeComplete)
    else if g.msgType = "cancel" then
      match m.cancelBody with
      | none => (.fatal, handshakeComplete)
      | some req =>
        (.reply (.cancel (handleCancel req st respId ts).1), handshakeComplete)
    else
      (.dropped, handshakeComplete)

/-! ## String primitives mirroring the Rust `str` operations used by
`simulator.rs`.  Strings are handled through their character lists. -/

/-- Unicode `White_Space` (what Rust `str::trim` / `split_whitespace` strip). -/
def isRustWs (c : Char) : Bool :=
  let n := c.toNat
  n = 0x20 || (0x9 ≤ n && n ≤ 0xD) || n = 0x85 || n = 0xA0 || n = 0x1680 ||
  (0x2000 ≤ n && n ≤ 0x200A) || n = 0x2028 || n = 0x2029 || n = 0x202F ||
  n = 0x205F || n = 0x3000

def dropTrailing (p : Char → Bool) (l : List Char) : List Char :=
  (l.reverse.dropWhile p).reverse

/-- Rust `str::trim`. -/
def rustTrim (s : String) : String :=
  ⟨dropTrailing isRustWs (s.data.dropWhile isRustWs)⟩

/-- ASCII case folding.  (Rust `to_lowercase` is the full Unicode mapping;
every character this program actually compares through it is ASCII, where
the two agree.) -/
def lowerChar (c : Char) : Char :=
  if 'A' ≤ c && c ≤ 'Z' then Char.ofNat (c.toNat + 32) else c

def lowerStr (s : String) : String := ⟨s.data.map lowerChar⟩

/-- Rust `str::contains` (substring test). -/
def containsStr (hay pat : String) : Bool :=
  hay.data.tails.any (fun t => pat.data.isPrefixOf t)

/-- Rust `str::starts_with`. -/
def startsWithStr (s pre : String) : Bool := pre.data.isPrefixOf s.data

/-- Split a character list at every occurrence of `sep` (Rust `str::split`). -/
def splitOnCh (sep : Char) : List Char → List (List Char)
  | [] => [[]]
  | c :: cs =>
    if c = sep then [] :: splitOnCh sep cs
    else
      match splitOnCh sep cs with
      | [] => [[c]]
      | l :: ls => (c :: l) :: ls

/-- Rust `str::lines` strips one trailing carriage return from each line. -/
def stripCR (l : List Char) : List Char :=
  if l.getLast? = some '\r' then l.dropLast else l

/-- A final empty segment (produced by a trailing newline) yields no line. -/
def dropFinalEmptySeg (segs : List (List Char)) : List (List Char) :=
  if segs.getLast? = some [] then segs.dropLast else segs

/-- Rust `str::lines`: split on `'\n'`, drop the final empty segment, strip
one trailing `'\r'` per line. -/
def rustLines (s : String) : List String :=
  (dropFinalEmptySeg (splitOnCh '\n' s.data)).map (fun l => ⟨stripCR l⟩)

/-- Segments joined with a newline between consecutive segments. -/
def joinSegs : List (List Char) → List Char
  | [] => []
  | [l] => l
  | l :: l' :: ls => l ++ '\n' :: joinSegs (l' :: ls)

/-- `Vec<String>::join("\n")`. -/
def joinLines (ls : List String) : String :=
  ⟨joinSegs (ls.map (·.data))⟩

/-- Rust `split_whitespace`: maximal runs of non-whitespace characters. -/
def splitWhitespace (s : String) : List String :=
  ((splitWsChars s.data).filter (fun l => ¬ l.isEmpty)).map (fun l => ⟨l⟩)
where
  splitWsChars : List Char → List (List Char)
    | [] => [[]]
    | c :: cs =>
      if isRustWs c then [] :: splitWsChars cs
      else
        match splitWsChars cs with
        | [] => [[c]]
        | l :: ls => (c :: l) :: ls

/-- Rust `str::parse::<usize>().unwrap_or(0)`: optional `+` sign, at least
one ASCII digit, value below `2 ^ 64` (overflow is a parse error, which
`unwrap_or` turns into 0). -/
def parseUsizeOr0 (s : String) : Nat :=
  let l := match s.data with
    | '+' :: rest => rest
    | l => l
  if l ≠ [] && l.all Char.isDigit then
    let v := l.foldl (fun acc c => acc * 10 + (c.toNat - 48)) 0
    if v < 2 ^ 64 then v else 0
  else 0

/-! ## Netlist preprocessor (`simulator.rs`) -/

/-- A line equal to `.end` after trimming and lowercasing. -/
def isEndLine (l : String) : Bool := lowerStr (rustTrim l) = ".end"

/-- The `plotwinsize` value chosen from the waveform-quality hint. -/
def plotWinSize (waveformQuality : String) : Nat :=
  if waveformQuality = "fast" then 128
  else if waveformQuality = "balanced" then 0
  else if waveformQuality = "smooth" then 0
  else 0

/-- `prepare_netlist`: insert `.backanno`, `.save all` and a
quality-dependent `.options plotwinsize=` line, each immediately before the
first `.end` line and only when the lowercased input does not already
contain the corresponding text.  When no `.end` line exists, nothing is
inserted. -/
def prepareNetlist (netlist : String) (waveformQuality : String) : String :=
  let ls0 := rustLines netlist
  let ls1 :=
    if containsStr (lowerStr netlist) ".backanno" then ls0
    else
      match ls0.findIdx? isEndLine with
      | some i => ls0.insertIdx i ".backanno"
      | none => ls0
  let ls2 :=
    if containsStr (lowerStr netlist) ".save" then ls1
    else
      match ls1.findIdx? isEndLine with
      | some i => ls1.insertIdx i ".save all"
      | none => ls1
  let ls3 :=
    if containsStr (lowerStr netlist) ".options plotwinsize" then ls2
    else
      match ls2.findIdx? isEndLine with
      | some i =>
        ls2.insertIdx i (".options plotwinsize=" ++ toString (plotWinSize waveformQuality))
      | none => ls2
  joinLines ls3

/-- The raw-file path as written into the control block: backslashes become
forward slashes. -/
def ngWritePath (rawPath : String) : String :=
  ⟨rawPath.data.map (fun c => if c = '\\' then '/' else c)⟩

/-- The `.control` block injected for ngspice (single quotes around the path
only when it contains a space). -/
def ngControlSection (rawPath : String) : List String :=
  let p := ngWritePath rawPath
  let writeCmd :=
    if p.data.contains ' ' then "write \x27" ++ p ++ "\x27 all"
    else "write " ++ p ++ " all"
  [".control", "run", writeCmd, "quit", ".endc"]

/-- `prepare_ngspice_netlist`: when no `.control` block exists, the control
section is inserted line by line immediately before the `.end` line (which
places the block, in order, just before it); with no `.end` line the control
section and a final `.end` are appended instead. -/
def prepareNgspiceNetlist (netlist : String) (rawPath : String) : String :=
  let ls := rustLines netlist
  if containsStr (lowerStr netlist) ".control" then joinLines ls
  else
    match ls.findIdx? isEndLine with
    | some idx => joinLines (ls.take idx ++ ngControlSection rawPath ++ ls.drop idx)
    | none => joinLines (ls ++ ngControlSection rawPath ++ [".end"])

/-- Whether a line's lowercased form contains `pat`. -/
def lineHas (pat : String) (l : String) : Bool := containsStr (lowerStr l) pat

/-! ## Result codec (`simulator.rs`): byte-level primitives -/

/-- Little-endian accumulation of bytes into a bit pattern. -/
def leNat : List Nat → Nat
  | [] => 0
  | b :: bs => b + 256 * leNat bs

/-- `f64::from_le_bytes` on the 8 bytes at `off` (represented by the bit
pattern), `none` on overrun — mirroring `read_f64_le`. -/
def readF64 (data : List Nat) (off : Nat) : Option Nat :=
  if off + 8 ≤ data.length then some (leNat ((data.drop off).take 8)) else none

/-- `read_f32_le` (the f32→f64 widening is recorded by the `Val.f32` tag). -/
def readF32 (data : List Nat) (off : Nat) : Option Nat :=
  if off + 4 ≤ data.length then some (leNat ((data.drop off).take 4)) else none

/-- First index at which `needle` occurs in the list
(`find_subsequence`; the needles used are never empty). -/
def findSubseq (needle : List Nat) : List Nat → Option Nat
  | [] => if needle.isPrefixOf [] then some 0 else none
  | l@(_ :: t) =>
    if needle.isPrefixOf l then some 0 else (findSubseq needle t).map (· + 1)

/-! ### Text decoding

`parse_raw_file` decodes the artifact with `encoding_rs` `UTF_16LE.decode`
(BOM-sniffing, malformed sequences replaced by U+FFFD);
`parse_ngspice_raw_file` uses strict `std::str::from_utf8` per line. -/

def isHighSurr (u : Nat) : Bool := 0xD800 ≤ u && u ≤ 0xDBFF

def isLowSurr (u : Nat) : Bool := 0xDC00 ≤ u && u ≤ 0xDFFF

/-- 16-bit code units from little-endian bytes; a trailing lone byte is
malformed and becomes a replacement character. -/
def utf16Units : List Nat → List Nat
  | [] => []
  | [_] => [0xFFFD]
  | b0 :: b1 :: rest => (b0 + 256 * b1) :: utf16Units rest

/-- 16-bit code units from big-endian bytes (the BOM-sniffed UTF-16BE case). -/
def utf16beUnits : List Nat → List Nat
  | [] => []
  | [_] => [0xFFFD]
  | b0 :: b1 :: rest => (b0 * 256 + b1) :: utf16beUnits rest

/-- Code units to scalar values: surrogate pairs combine, lone surrogates
are replaced. -/
def utf16Scalars : List Nat → List Nat
  | [] => []
  | [u] => [if isHighSurr u || isLowSurr u then 0xFFFD else u]
  | u :: v :: rest =>
    if isHighSurr u then
      if isLowSurr v then
        (0x10000 + (u - 0xD800) * 0x400 + (v - 0xDC00)) :: utf16Scalars rest
      else 0xFFFD :: utf16Scalars (v :: rest)
    else if isLowSurr u then 0xFFFD :: utf16Scalars (v :: rest)
    else u :: utf16Scalars (v :: rest)

def scalarsToStr (cps : List Nat) : String := ⟨cps.map Char.ofNat⟩

def utf8Cont (b : Nat) : Bool := 0x80 ≤ b && b < 0xC0

/-- Strict UTF-8 decoding to scalar values (`std::str::from_utf8`):
`none` on any malformed sequence. -/
def utf8Decode : List Nat → Option (List Nat)
  | [] => some []
  | b :: rest =>
    if b < 0x80 then (utf8Decode rest).map (b :: ·)
    else if b < 0xC2 then none
    else if b < 0xE0 then
      match rest with
      | c1 :: rest1 =>
        if utf8Cont c1 then
          (utf8Decode rest1).map (((b - 0xC0) * 0x40 + (c1 - 0x80)) :: ·)
        else none
      | [] => none
    else if b < 0xF0 then
      match rest with
      | c1 :: c2 :: rest2 =>
        if (if b = 0xE0 then decide (0xA0 ≤ c1) && decide (c1 < 0xC0)
            else if b = 0xED then decide (0x80 ≤ c1) && decide (c1 < 0xA0)
            else utf8Cont c1) && utf8Cont c2 then
          (utf8Decode rest2).map
            (((b - 0xE0) * 0x1000 + (c1 - 0x80) * 0x40 + (c2 - 0x80)) :: ·)
        else none
      | _ => none
    else if b < 0xF5 then
      match rest with
      | c1 :: c2 :: c3 :: rest3 =>
        if (if b = 0xF0 then decide (0x90 ≤ c1) && decide (c1 < 0xC0)
            else if b = 0xF4 then decide (0x80 ≤ c1) && decide (c1 < 0x90)
            else utf8Cont c1) && utf8Cont c2 && utf8Cont c3 then
          (utf8Decode rest3).map
            (((b - 0xF0) * 0x40000 + (c1 - 0x80) * 0x1000 +
              (c2 - 0x80) * 0x40 + (c3 - 0x80)) :: ·)
        else none
      | _ => none
    else none

/-- Lossy UTF-8 decoding (only reached when BOM sniffing routes a
`UTF_16LE.decode` call to UTF-8): a malformed lead is replaced and decoding
resumes after it. -/
def utf8Lossy : List Nat → List Nat
  | [] => []
  | b :: rest =>
    if b < 0x80 then b :: utf8Lossy rest
    else if b < 0xC2 then 0xFFFD :: utf8Lossy rest
    else if b < 0xE0 then
      match rest with
      | c1 :: rest1 =>
        if utf8Cont c1 then
          ((b - 0xC0) * 0x40 + (c1 - 0x80)) :: utf8Lossy rest1
        else 0xFFFD :: utf8Lossy (c1 :: rest1)
      | [] => [0xFFFD]
    else if b < 0xF0 then
      match rest with
      | c1 :: c2 :: rest2 =>
        if (if b = 0xE0 then decide (0xA0 ≤ c1) && decide (c1 < 0xC0)
            else if b = 0xED then decide (0x80 ≤ c1) && decide (c1 < 0xA0)
            else utf8Cont c1) && utf8Cont c2 then
          ((b - 0xE0) * 0x1000 + (c1 - 0x80) * 0x40 + (c2 - 0x80)) ::
            utf8Lossy rest2
        else 0xFFFD :: utf8Lossy (c1 :: c2 :: rest2)
      | [c1] => 0xFFFD :: utf8Lossy [c1]
      | [] => [0xFFFD]
    else if b < 0xF5 then
      match rest with
      | c1 :: c2 :: c3 :: rest3 =>
        if (if b = 0xF0 then decide (0x90 ≤ c1) && decide (c1 < 0xC0)
            else if b = 0xF4 then decide (0x80 ≤ c1) && decide (c1 < 0x90)
            else utf8Cont c1) && utf8Cont c2 && utf8Cont c3 then
          ((b - 0xF0) * 0x40000 + (c1 - 0x80) * 0x1000 +
            (c2 - 0x80) * 0x40 + (c3 - 0x80)) :: utf8Lossy rest3
        else 0xFFFD :: utf8Lossy (c1 :: c2 :: c3 :: rest3)
      | [c1, c2] => 0xFFFD :: utf8Lossy [c1, c2]
      | [c1] => 0xFFFD :: utf8Lossy [c1]
      | [] => [0xFFFD]
    else 0xFFFD :: utf8Lossy rest
termination_by l => l.length
decreasing_by
  all_goals (simp only [List.length_cons, List.length_nil]; omega)

/-- `encoding_rs` `UTF_16LE.decode`: BOM sniffing (a UTF-8 or UTF-16BE BOM
reroutes the decode), then decoding with replacement. -/
def decodeUtf16LeBom (data : List Nat) : String :=
  match data with
  | 0xEF :: 0xBB :: 0xBF :: rest => scalarsToStr (utf8Lossy rest)
  | 0xFF :: 0xFE :: rest => scalarsToStr (utf16Scalars (utf16Units rest))
  | 0xFE :: 0xFF :: rest => scalarsToStr (utf16Scalars (utf16beUnits rest))
  | _ => scalarsToStr (utf16Scalars (utf16Units data))

/-- `encode_utf16` of a string followed by little-endian serialisation —
how the code builds the UTF-16LE `Binary:` markers. -/
def charUtf16 (c : Char) : List Nat :=
  let n := c.toNat
  if n < 0x10000 then [n]
  else [0xD800 + (n - 0x10000) / 0x400, 0xDC00 + (n - 0x10000) % 0x400]

def utf16leBytes (s : String) : List Nat :=
  ((s.data.map charUtf16).flatten).map (fun u => [u % 256, u / 256]) |>.flatten

/-- ASCII text as raw bytes (for building Format-B artifacts and the 8-bit
markers). -/
def asciiBytes (s : String) : List Nat := s.data.map Char.toNat

/-! ## Format A (`parse_raw_file`) -/

structure HeaderA where
  numVars : Nat
  numPoints : Nat
  vars : List (String × String)
  inVars : Bool
  isDouble : Bool
  deriving Repr

def initHeaderA : HeaderA :=
  { numVars := 0, numPoints := 0, vars := [], inVars := false,
    isDouble := false }

/-- One trimmed header line of `parse_raw_file`; `none` is the `Binary:`
break. -/
def headerAStep (st : HeaderA) (l : String) : Option HeaderA :=
  if startsWithStr l "No. Variables:" then
    some (match (splitOnCh ':' l.data).get? 1 with
      | some n => { st with numVars := parseUsizeOr0 (rustTrim ⟨n⟩) }
      | none => st)
  else if startsWithStr l "No. Points:" then
    some (match (splitOnCh ':' l.data).get? 1 with
      | some n => { st with numPoints := parseUsizeOr0 (rustTrim ⟨n⟩) }
      | none => st)
  else if startsWithStr l "Flags:" then
    some { st with isDouble := containsStr (lowerStr l) "double" }
  else if l = "Variables:" then some { st with inVars := true }
  else if l = "Binary:" then none
  else if st.inVars && l ≠ "" then
    some (let parts := splitOnCh '\t' l.data
      if 3 ≤ parts.length then
        { st with vars := st.vars ++ [(⟨parts.getD 1 []⟩, ⟨parts.getD 2 []⟩)] }
      else st)
  else some st

def headerALoop : HeaderA → List String → HeaderA
  | st, [] => st
  | st, l :: rest =>
    match headerAStep st (rustTrim l) with
    | none => st
    | some st' => headerALoop st' rest

def headerAOf (data : List Nat) : HeaderA :=
  headerALoop initHeaderA (rustLines (decodeUtf16LeBom data))

def markerA1 : List Nat := utf16leBytes "Binary:\n"
def markerA2 : List Nat := utf16leBytes "Binary:\r\n"
def markerA3 : List Nat := asciiBytes "Binary:\n"
def markerA4 : List Nat := asciiBytes "Binary:\r\n"

/-- `find_binary_marker`: the four marker encodings tried in order; the
result points just past the marker. -/
def findBinaryMarkerA (data : List Nat) : Option Nat :=
  match findSubseq markerA1 data with
  | some p => some (p + markerA1.length)
  | none =>
    match findSubseq markerA2 data with
    | some p => some (p + markerA2.length)
    | none =>
      match findSubseq markerA3 data with
      | some p => some (p + markerA3.length)
      | none =>
        match findSubseq markerA4 data with
        | some p => some (p + markerA4.length)
        | none => none

/-- Per-point byte width: axis always 8 bytes; others 8 when the double flag
is set, else 4. -/
def bppA (numVars : Nat) (isDouble : Bool) : Nat :=
  if isDouble then numVars * 8 else 8 + (numVars - 1) * 4

/-- One value read by direct offset arithmetic. -/
def readValA (bd : List Nat) (bpp : Nat) (isDouble : Bool) (p v : Nat) :
    Option Val :=
  if v = 0 then (readF64 bd (p * bpp)).map Val.f64
  else if isDouble then (readF64 bd (p * bpp + v * 8)).map Val.f64
  else (readF32 bd (p * bpp + 8 + (v - 1) * 4)).map Val.f32

/-- All-or-nothing sequencing: any failed element aborts. -/
def seqOpt {α : Type _} : List (Option α) → Option (List α)
  | [] => some []
  | none :: _ => none
  | some a :: os => (seqOpt os).map (a :: ·)

/-- The point/variable read loop of `parse_raw_file`, by columns: every
failed read is propagated with `?`, so the whole parse aborts unless every
read succeeds — which makes the column view equivalent to the code's
point-major push loop. -/
def decodeBodyA (bd : List Nat) (numPoints numVars : Nat) (isDouble : Bool) :
    Option (List (List Val)) :=
  seqOpt ((List.range numVars).map (fun v =>
    seqOpt ((List.range numPoints).map (fun p =>
      readValA bd (bppA numVars isDouble) isDouble p v))))

def unitOfTypeA (t : String) : String :=
  if t = "voltage" then "V"
  else if t = "current" then "A"
  else if t = "time" then "s"
  else ""

def analysisTypeA (headerText : String) : String :=
  if containsStr (lowerStr headerText) "transient analysis" then "transient"
  else if containsStr (lowerStr headerText) "ac analysis" then "ac"
  else if containsStr (lowerStr headerText) "dc" then "dc"
  else "transient"

/-- Both decoders build traces the same way: enumerate the variables, skip
the axis (index 0), pair each with its column (empty when absent), and map
the declared type to a unit. -/
def mkTraces (unitOf : String → String) (vars : List (String × String))
    (allData : List (List Val)) : List Trace :=
  (vars.enum.drop 1).map (fun p =>
    { name := p.2.1, data := allData.getD p.1 [], unit := unitOf p.2.2 })

def parseRawFile (data : List Nat) : Except String SimulationResults :=
  if (headerAOf data).numVars = 0 || (headerAOf data).numPoints = 0 then
    .error "Could not parse raw file header"
  else
    match findBinaryMarkerA data with
    | none => .error "Could not find binary data marker"
    | some bs =>
      if (data.drop bs).length <
          (headerAOf data).numPoints *
            bppA (headerAOf data).numVars (headerAOf data).isDouble then
        .error "Binary data too short"
      else
        match decodeBodyA (data.drop bs) (headerAOf data).numPoints
            (headerAOf data).numVars (headerAOf data).isDouble with
        | none => .error "Buffer overflow reading value"
        | some allData =>
          .ok { time := allData.getD 0 [],
                traces := mkTraces unitOfTypeA (headerAOf data).vars allData,
                analysisType := analysisTypeA (decodeUtf16LeBom data),
                xAxisLabel := some
                  (((headerAOf data).vars.head?.map
                    (fun p => lowerStr p.1)).getD "time") }

/-! ## Format B (`parse_ngspice_raw_file`) -/

structure NgHeader where
  numVars : Nat
  numPoints : Nat
  vars : List (String × String)
  analysisType : String
  xAxisLabel : String
  isBinary : Bool
  isComplex : Bool
  dataStart : Nat
  inVars : Bool
  varIndex : Nat
  stopped : Bool
  deriving Repr

def initNgHeader : NgHeader :=
  { numVars := 0, numPoints := 0, vars := [], analysisType := "transient",
    xAxisLabel := "time", isBinary := false, isComplex := false,
    dataStart := 0, inVars := false, varIndex := 0, stopped := false }

/-- One header line of `parse_ngspice_raw_file` (non-UTF-8 lines are
skipped; `stopped` records the `Values:`/`Binary:` break; `nextPos` is the
byte offset just after this line's newline). -/
def ngHeaderLine (st : NgHeader) (lineBytes : List Nat) (nextPos : Nat) :
    NgHeader :=
  match utf8Decode lineBytes with
  | none => st
  | some cps =>
    let l := rustTrim (scalarsToStr cps)
    if startsWithStr l "Plotname:" then
      let plotname := (((splitOnCh ':' l.data).get? 1).map
        (fun s => lowerStr (rustTrim ⟨s⟩))).getD ""
      if containsStr plotname "dc" || containsStr plotname "operating point"
      then { st with analysisType := "dc" }
      else if containsStr plotname "ac analysis" ||
          startsWithStr plotname "ac " then
        { st with analysisType := "ac" }
      else if containsStr plotname "transient" then
        { st with analysisType := "transient" }
      else { st with analysisType := "transient" }
    else if startsWithStr l "Flags:" then
      { st with isComplex := containsStr (lowerStr l) "complex" }
    else if startsWithStr l "No. Variables:" then
      match (splitOnCh ':' l.data).get? 1 with
      | some n => { st with numVars := parseUsizeOr0 (rustTrim ⟨n⟩) }
      | none => st
    else if startsWithStr l "No. Points:" then
      match (splitOnCh ':' l.data).get? 1 with
      | some n => { st with numPoints := parseUsizeOr0 (rustTrim ⟨n⟩) }
      | none => st
    else if l = "Variables:" then { st with inVars := true, varIndex := 0 }
    else if l = "Values:" then
      { st with isBinary := false, dataStart := nextPos, stopped := true }
    else if l = "Binary:" then
      { st with isBinary := true, dataStart := nextPos, stopped := true }
    else if st.inVars && l ≠ "" then
      let parts := splitWhitespace l
      if 3 ≤ parts.length then
        let name := parts.getD 1 ""
        let ty := parts.getD 2 ""
        let st1 := if st.varIndex = 0 then
            { st with xAxisLabel := lowerStr name }
          else st
        { st1 with vars := st1.vars ++ [(name, ty)],
                   varIndex := st1.varIndex + 1 }
      else st
    else st

/-- One trailing CR is dropped from a header line's bytes
(`data[i-1] == b'\r'`). -/
def stripCrBytes (l : List Nat) : List Nat :=
  if l.getLast? = some 13 then l.dropLast else l

/-- The byte loop over the header: `acc` accumulates the current line's
bytes in reverse, `pos` is the absolute index of the byte under the cursor;
bytes after the last newline are never parsed. -/
def ngHeaderLoop (st : NgHeader) (acc : List Nat) (pos : Nat) :
    List Nat → NgHeader
  | [] => st
  | b :: rest =>
    if b = 10 then
      let st' := ngHeaderLine st (stripCrBytes acc.reverse) (pos + 1)
      if st'.stopped then st' else ngHeaderLoop st' [] (pos + 1) rest
    else ngHeaderLoop st (b :: acc) (pos + 1) rest

def ngHeaderOf (data : List Nat) : NgHeader :=
  ngHeaderLoop initNgHeader [] 0 data

/-- The exponent of a Rust float literal: `(e|E) sign? digits`. -/
def expPart : List Char → Bool
  | [] => true
  | c :: rest =>
    if c = 'e' || c = 'E' then
      let sgn := match rest with
        | d :: ds => if d = '+' || d = '-' then ds else rest
        | [] => []
      sgn ≠ [] && sgn.all Char.isDigit
    else false

def decimalLit (l : List Char) : Bool :=
  let intPart := l.takeWhile Char.isDigit
  let rest1 := l.drop intPart.length
  match rest1 with
  | '.' :: rest2 =>
    let frac := rest2.takeWhile Char.isDigit
    let rest3 := rest2.drop frac.length
    (intPart ≠ [] || frac ≠ []) && expPart rest3
  | _ => intPart ≠ [] && expPart rest1

/-- The grammar accepted by Rust `str::parse::<f64>()`: optional sign, then
`inf` / `infinity` / `nan` (case-insensitive) or a decimal literal. -/
def isF64Lit (s : String) : Bool :=
  let l := match s.data with
    | c :: rest => if c = '+' || c = '-' then rest else s.data
    | [] => []
  let low := l.map lowerChar
  if low = "inf".data || low = "infinity".data || low = "nan".data then true
  else decimalLit l

/-- `parse::<f64>()`, the value kept as its literal. -/
def parseF64 (s : String) : Option Val :=
  if isF64Lit s then some (Val.lit s) else none

/-- One binary value of the ngspice decoder (complex values are collapsed to
magnitude except for the axis, which keeps the real part). -/
def readNgBin (bd : List Nat) (numVars : Nat) (isComplex : Bool) (p v : Nat) :
    Option Val :=
  let vpv := if isComplex then 2 else 1
  let bpp := numVars * vpv * 8
  if isComplex then
    match readF64 bd (p * bpp + v * 16), readF64 bd (p * bpp + v * 16 + 8) with
    | some re, some im =>
      some (if v = 0 then Val.f64 re else Val.mag (Val.f64 re) (Val.f64 im))
    | _, _ => none
  else (readF64 bd (p * bpp + v * 8)).map Val.f64

/-- The binary point loop, by columns.  The loop breaks at the first point
whose record would overrun the buffer; that bound is monotone in the point
index, so the processed points are exactly those below it, and a value is
pushed only when its reads succeed. -/
def ngBinColumns (bd : List Nat) (numVars numPoints : Nat)
    (isComplex : Bool) : List (List Val) :=
  let vpv := if isComplex then 2 else 1
  let bpp := numVars * vpv * 8
  (List.range numVars).map (fun v =>
    (List.range numPoints).filterMap (fun p =>
      if p * bpp + bpp ≤ bd.length then readNgBin bd numVars isComplex p v
      else none))

/-- Push into column `i`; out-of-range indices are ignored
(`current_var_index < all_data.len()`). -/
def pushAt : List (List Val) → Nat → Val → List (List Val)
  | [], _, _ => []
  | c :: cs, 0, v => (c ++ [v]) :: cs
  | c :: cs, n + 1, v => c :: pushAt cs n v

/-- One line of the ASCII `Values:` region: state is (columns, current
variable index). -/
def ngAsciiStep (isComplex : Bool) (acc : List (List Val) × Nat)
    (line : String) : List (List Val) × Nat :=
  if line = "" then acc
  else
    let trimmed := rustTrim line
    if trimmed = "" then acc
    else
      let isNewPoint := trimmed.data.contains '\t' &&
        ((trimmed.data.head?.map Char.isDigit).getD false)
      let idx0 := if isNewPoint then 0 else acc.2
      let valuePart : String :=
        if isNewPoint then
          match trimmed.data.findIdx? (· = '\t') with
          | some tabPos => ⟨trimmed.data.drop (tabPos + 1)⟩
          | none => (splitWhitespace trimmed).getD 1 ""
        else trimmed
      let valuePart := rustTrim valuePart
      if valuePart = "" then (acc.1, idx0)
      else if isComplex then
        let parts := splitOnCh ',' valuePart.data
        if 2 ≤ parts.length then
          match parseF64 (rustTrim ⟨parts.getD 0 []⟩),
              parseF64 (rustTrim ⟨parts.getD 1 []⟩) with
          | some re, some im =>
            (pushAt acc.1 idx0 (if idx0 = 0 then re else Val.mag re im),
             idx0 + 1)
          | _, _ => (acc.1, idx0)
        else (acc.1, idx0)
      else
        match parseF64 valuePart with
        | some value => (pushAt acc.1 idx0 value, idx0 + 1)
        | none => (acc.1, idx0)

def ngAsciiColumns (valuesStr : String) (numVars : Nat) (isComplex : Bool) :
    List (List Val) :=
  ((rustLines valuesStr).foldl (ngAsciiStep isComplex)
    (List.replicate numVars [], 0)).1

def unitOfTypeNg (t : String) : String :=
  if t = "voltage" then "V"
  else if t = "current" then "A"
  else if t = "time" then "s"
  else if t = "frequency" then "Hz"
  else ""

/-- The common tail of `parse_ngspice_raw_file` once the data section has
been decoded into columns. -/
def ngFinish (data : List Nat) (allData : List (List Val)) :
    Except String SimulationResults :=
  if allData.isEmpty || (allData.getD 0 []).isEmpty then
    .error "Could not parse ngspice raw file - no data found"
  else
    .ok { time := allData.getD 0 [],
          traces := mkTraces unitOfTypeNg (ngHeaderOf data).vars allData,
          analysisType := (ngHeaderOf data).analysisType,
          xAxisLabel := some (ngHeaderOf data).xAxisLabel }

def parseNgspiceRawFile (data : List Nat) : Except String SimulationResults :=
  if (ngHeaderOf data).numVars = 0 || (ngHeaderOf data).vars.isEmpty then
    .error "Could not parse ngspice raw file header"
  else if (ngHeaderOf data).isBinary then
    ngFinish data (ngBinColumns (data.drop (ngHeaderOf data).dataStart)
      (ngHeaderOf data).numVars (ngHeaderOf data).numPoints
      (ngHeaderOf data).isComplex)
  else
    match utf8Decode (data.drop (ngHeaderOf data).dataStart) with
    | some cps =>
      ngFinish data (ngAsciiColumns (scalarsToStr cps)
        (ngHeaderOf data).numVars (ngHeaderOf data).isComplex)
    | none => .error "Could not parse ngspice ASCII values as UTF-8"

instance {e a : Type} [DecidableEq e] [DecidableEq a] :
    DecidableEq (Except e a) := fun x y =>
  match x, y with
  | .ok u, .ok v =>
    match decEq u v with
    | isTrue h => isTrue (h ▸ rfl)
    | isFalse h => isFalse (fun hc => h (Except.ok.inj hc))
  | .error u, .error v =>
    match decEq u v with
    | isTrue h => isTrue (h ▸ rfl)
    | isFalse h => isFalse (fun hc => h (Except.error.inj hc))
  | .ok _, .error _ => isFalse (fun hc => Except.noConfusion hc)
  | .error _, .ok _ => isFalse (fun hc => Except.noConfusion hc)

/-! ## Concrete artifacts used as test inputs for the codec theorems -/

/-- A Format-A artifact truncated below the expected binary size: header
declares 2 variables × 1 point in single precision (12 bytes per point) but
only 4 bytes follow the marker. -/
def exTruncA : List Nat :=
  utf16leBytes "Title: op\nPlotname: Transient Analysis\nFlags: real\nNo. Variables: 2\nNo. Points: 1\nVariables:\n\t0\ttime\ttime\n\t1\tfoo\tfrequency\nBinary:\n"
    ++ List.replicate 4 0

/-- The same Format-A artifact with its full 12 data bytes, whose second
variable has declared type `frequency`. -/
def exFreqA : List Nat :=
  utf16leBytes "Title: op\nPlotname: Transient Analysis\nFlags: real\nNo. Variables: 2\nNo. Points: 1\nVariables:\n\t0\ttime\ttime\n\t1\tfoo\tfrequency\nBinary:\n"
    ++ List.replicate 12 0

/-- What `parse_raw_file` returns on `exFreqA`. -/
def exFreqAResult : SimulationResults :=
  { time := [Val.f64 0],
    traces := [{ name := "foo", data := [Val.f32 0], unit := "" }],
    analysisType := "transient", xAxisLabel := some "time" }

/-- A Format-B ASCII artifact that ends in the middle of its single point:
the axis value is present but the `v(out)` value line is missing. -/
def exPartialNg : List Nat :=
  asciiBytes "Title: t\nPlotname: Transient Analysis\nNo. Variables: 2\nNo. Points: 1\nVariables:\n\t0\ttime\ttime\n\t1\tv(out)\tvoltage\nValues:\n0\t1.0\n"

/-- What `parse_ngspice_raw_file` returns on `exPartialNg`: an `Ok` result
whose `v(out)` trace is shorter than the axis. -/
def exPartialNgResult : SimulationResults :=
  { time := [Val.lit "1.0"],
    traces := [{ name := "v(out)", data := [], unit := "V" }],
    analysisType := "transient", xAxisLabel := some "time" }

/-! ## Proof infrastructure (not part of the embedded program) -/

/-- Length of the `i`-th column. -/
def colLen (cols : List (List Val)) (i : Nat) : Nat := (cols.getD i []).length

/-- Invariant of the ASCII `Values:` fold: column lengths are non-increasing
left to right, and strictly drop at the next slot to be filled.  It implies
that no trace column ever gets longer than the axis column. -/
def AsciiInv (cols : List (List Val)) (idx : Nat) : Prop :=
  (∀ i, 1 ≤ i → i < cols.length → colLen cols i ≤ colLen cols (i - 1)) ∧
  (1 ≤ idx → idx < cols.length → colLen cols idx < colLen cols (idx - 1))

/-- Number of lines of `s` whose lowercased form contains `pat` — used to
count occurrences of an injected directive. -/
def dirLineCount (s pat : String) : Nat :=
  ((rustLines s).filter (lineHas pat)).length

end Kelicad

namespace Kelicad

/-! ## Theorems: protocol engine -/

/-- C1: a handshake from an origin outside the allow-list gets a response
with `success := false`, a non-empty error string, no `ltspice_path`, and
all-false / empty capabilities; the response is a fixed constant, so no
capability information from the agent's state can appear in it. -/
theorem handshake_rejects_unknown_origin
    (req : HandshakeRequest) (st : AppState) (respId : String) (ts : Nat)
    (h : isOriginAllowed req.origin = false) :
    (handleHandshake req st respId ts).success = false ∧
    (handleHandshake req st respId ts).error = some "Invalid origin" ∧
    "Invalid origin" ≠ "" ∧
    (handleHandshake req st respId ts).ltspicePath = none ∧
    (handleHandshake req st respId ts).capabilities.ltspiceAvailable = false ∧
    (handleHandshake req st respId ts).capabilities.ngspiceAvailable = false ∧
    (handleHandshake req st respId ts).capabilities.supportedAnalyses = [] ∧
    (∀ st' : AppState,
      handleHandshake req st' respId ts = handleHandshake req st respId ts) := by
  simp only [handleHandshake, h, Bool.false_eq_true, not_false_eq_true, if_true]
  simp

/-- C1 witness at the concrete origin `"https://malicious.com"`. -/
theorem handshake_rejects_unknown_origin_witness :
    isOriginAllowed "https://malicious.com" = false ∧
    (handleHandshake
      { id := "1", msgType := "handshake", origin := "https://malicious.com",
        version := "1.0.0", timestamp := 0 }
      { ltspicePath := some "/Applications/LTspice.app", isSimulating := false,
        wsConnections := 0, simulationCount := 0, lastSimulationTime := none,
        currentSimulationId := none, cancelRequested := false,
        currentProcessId := 0 } "r" 5).success = false :=
  ⟨by decide,
   (handshake_rejects_unknown_origin
      { id := "1", msgType := "handshake", origin := "https://malicious.com",
        version := "1.0.0", timestamp := 0 }
      { ltspicePath := some "/Applications/LTspice.app", isSimulating := false,
        wsConnections := 0, simulationCount := 0, lastSimulationTime := none,
        currentSimulationId := none, cancelRequested := false,
        currentProcessId := 0 } "r" 5 (by decide)).1⟩

/-- C2: (a) a simulate request arriving while the agent-wide `is_simulating`
flag is already set is answered with a failed already-running response, no
external process is launched and the state is untouched; (b) on every path
that does launch (success, failure, cancellation), the flag — set to `true`
for the job — is `false` again when the handler returns. -/
theorem simulate_single_flight_and_flag_reset
    (req : SimulationRequest) (st : AppState)
    (runResult : Except String SimulationResults) (cancelObserved : Bool)
    (respId : String) (ts execTime : Nat) :
    (st.isSimulating = true →
      (handleSimulate req st runResult cancelObserved respId ts execTime).response.success
          = false ∧
      (handleSimulate req st runResult cancelObserved respId ts execTime).response.error
          = some "Another simulation is already running" ∧
      (handleSimulate req st runResult cancelObserved respId ts execTime).launched
          = false ∧
      (handleSimulate req st runResult cancelObserved respId ts execTime).state = st) ∧
    (st.isSimulating = false →
      (handleSimulate req st runResult cancelObserved respId ts
        execTime).state.isSimulating = false) := by
  constructor
  · intro hbusy
    simp only [handleSimulate, hbusy, if_true]
    simp
  · intro hfree
    simp only [handleSimulate, hfree, Bool.false_eq_true, if_false]
    cases st.ltspicePath with
    | none => exact hfree
    | some p =>
      cases cancelObserved with
      | true => rfl
      | false => cases runResult with
        | ok r => rfl
        | error e => rfl

/-- C2 witness: a concrete busy state rejects, and a concrete idle state ends
with the flag cleared. -/
theorem simulate_single_flight_and_flag_reset_witness :
    (handleSimulate
      { id := "j1", msgType := "simulate", netlist := ".end",
        waveformQuality := "fast", timeout := none, timestamp := 0 }
      { ltspicePath := some "/usr/bin/ltspice", isSimulating := true,
        wsConnections := 1, simulationCount := 0, lastSimulationTime := none,
        currentSimulationId := some "j0", cancelRequested := false,
        currentProcessId := 7 }
      (.error "unused") false "r" 1 2).launched = false ∧
    (handleSimulate
      { id := "j1", msgType := "simulate", netlist := ".end",
        waveformQuality := "fast", timeout := none, timestamp := 0 }
      { ltspicePath := some "/usr/bin/ltspice", isSimulating := false,
        wsConnections := 1, simulationCount := 0, lastSimulationTime := none,
        currentSimulationId := none, cancelRequested := false,
        currentProcessId := 0 }
      (.error "boom") false "r" 1 2).state.isSimulating = false :=
  ⟨((simulate_single_flight_and_flag_reset _ _ _ _ _ _ _).1 rfl).2.2.1,
   (simulate_single_flight_and_flag_reset
      { id := "j1", msgType := "simulate", netlist := ".end",
        waveformQuality := "fast", timeout := none, timestamp := 0 }
      { ltspicePath := some "/usr/bin/ltspice", isSimulating := false,
        wsConnections := 1, simulationCount := 0, lastSimulationTime := none,
        currentSimulationId := none, cancelRequested := false,
        currentProcessId := 0 }
      (.error "boom") false "r" 1 2).2 rfl⟩

/-- C3: `handle_cancel` always produces a synchronous boolean response;
`success` is `true` exactly when the request id equals the current job id
(`false` when no job is running or on a mismatch); on success the
cancellation flag is set, and an in-flight job that observes the flag set
reports "Simulation cancelled" regardless of the run's actual outcome. -/
theorem cancel_semantics
    (req : CancelRequest) (st : AppState) (respId : String) (ts : Nat) :
    ((handleCancel req st respId ts).1.success = true ↔
      st.currentSimulationId = some req.requestId) ∧
    (st.currentSimulationId = none →
      (handleCancel req st respId ts).1.success = false) ∧
    ((handleCancel req st respId ts).1.success = true →
      (handleCancel req st respId ts).2.1.cancelRequested = true) ∧
    (∀ (req' : SimulationRequest) (st' : AppState)
       (runResult : Except String SimulationResults)
       (respId' : String) (ts' execTime : Nat),
       st'.isSimulating = false → st'.ltspicePath.isSome →
       (handleSimulate req' st' runResult true respId' ts' execTime).response.success
           = false ∧
       (handleSimulate req' st' runResult true respId' ts' execTime).response.error
           = some "Simulation cancelled") := by
  have hmain : ∀ (req' : SimulationRequest) (st' : AppState)
       (runResult : Except String SimulationResults)
       (respId' : String) (ts' execTime : Nat),
       st'.isSimulating = false → st'.ltspicePath.isSome →
       (handleSimulate req' st' runResult true respId' ts' execTime).response.success
           = false ∧
       (handleSimulate req' st' runResult true respId' ts' execTime).response.error
           = some "Simulation cancelled" := by
    intro req' st' runResult respId' ts' execTime hfree hpath
    simp only [handleSimulate, hfree, Bool.false_eq_true, if_false]
    cases hp : st'.ltspicePath with
    | none => rw [hp] at hpath; simp at hpath
    | some p => exact ⟨rfl, rfl⟩
  cases hcur : st.currentSimulationId with
  | none =>
    simp only [handleCancel, hcur]
    refine ⟨by simp, fun _ => by simp, by simp, hmain⟩
  | some current =>
    by_cases heq : current = req.requestId
    · simp only [handleCancel, hcur, heq, if_pos rfl]
      refine ⟨by simp, ?_, fun _ => by simp, hmain⟩
      intro hnone; exact absurd hnone (by simp)
    · simp only [handleCancel, hcur, if_neg heq]
      refine ⟨?_, fun _ => by simp, by simp, hmain⟩
      simp only [Bool.false_eq_true, false_iff, Option.some.injEq]
      exact fun h => heq h

/-- C3 witness: matching id cancels (and flag is set), mismatching id is
refused, and a cancelled run reports "Simulation cancelled". -/
theorem cancel_semantics_witness :
    let st : AppState :=
      { ltspicePath := some "/usr/bin/ltspice", isSimulating := true,
        wsConnections := 1, simulationCount := 0, lastSimulationTime := none,
        currentSimulationId := some "job-1", cancelRequested := false,
        currentProcessId := 44 }
    let okReq : CancelRequest :=
      { id := "c1", msgType := "cancel", requestId := "job-1", timestamp := 0 }
    let badReq : CancelRequest :=
      { id := "c2", msgType := "cancel", requestId := "job-2", timestamp := 0 }
    (handleCancel okReq st "r" 1).1.success = true ∧
    (handleCancel okReq st "r" 1).2.1.cancelRequested = true ∧
    (handleCancel badReq st "r" 1).1.success = false := by
  intro st okReq badReq
  refine ⟨?_, ?_, by decide⟩
  · exact (cancel_semantics okReq st "r" 1).1.mpr rfl
  · exact (cancel_semantics okReq st "r" 1).2.2.1
      ((cancel_semantics okReq st "r" 1).1.mpr rfl)

/-- C4 counterexample: a text message whose generic decode succeeds (tag
`"ping"`) but whose type-specific body decode fails is *not* dropped with
the connection kept open — the `?` on the body decode makes
`handle_connection` return an error, which ends the message loop and closes
the connection. -/
theorem malformed_body_counterexample :
    processTextMessage true
      { ltspicePath := none, isSimulating := false, wsConnections := 1,
        simulationCount := 0, lastSimulationTime := none,
        currentSimulationId := none, cancelRequested := false,
        currentProcessId := 0 }
      { generic := some { id := "m1", msgType := "ping" },
        handshakeBody := none, simulateBody := none, pingBody := none,
        cancelBody := none } "r" 0
      = (.fatal, true) ∧ StepAction.fatal ≠ StepAction.dropped := by
  exact ⟨rfl, by decide⟩

/-- C4 as amended: a failed *generic* decode and an unknown tag are logged
and dropped with the connection kept open, but a known tag whose
type-specific body decode fails terminates the message loop (the handler
propagates the decode error with `?`), closing the connection. -/
theorem malformed_message_handling
    (hc : Bool) (st : AppState) (m : InboundText) (respId : String) (ts : Nat) :
    (m.generic = none →
      processTextMessage hc st m respId ts = (.dropped, hc)) ∧
    (∀ g, m.generic = some g →
      g.msgType ≠ "handshake" → g.msgType ≠ "simulate" →
      g.msgType ≠ "ping" → g.msgType ≠ "cancel" →
      processTextMessage hc st m respId ts = (.dropped, hc)) ∧
    (∀ g, m.generic = some g → g.msgType = "handshake" →
      m.handshakeBody = none →
      processTextMessage hc st m respId ts = (.fatal, hc)) ∧
    (∀ g, m.generic = some g → g.msgType = "simulate" → hc = true →
      m.simulateBody = none →
      processTextMessage hc st m respId ts = (.fatal, hc)) ∧
    (∀ g, m.generic = some g → g.msgType = "ping" → m.pingBody = none →
      processTextMessage hc st m respId ts = (.fatal, hc)) ∧
    (∀ g, m.generic = some g → g.msgType = "cancel" → m.cancelBody = none →
      processTextMessage hc st m respId ts = (.fatal, hc)) := by
  refine ⟨?_, ?_, ?_, ?_, ?_, ?_⟩
  · intro hg; simp only [processTextMessage, hg]
  · intro g hg h1 h2 h3 h4
    simp only [processTextMessage, hg, if_neg h1, if_neg h2, if_neg h3, if_neg h4]
  · intro g hg ht hb
    simp only [processTextMessage, hg, ht, if_pos rfl, hb]
    simp
  · intro g hg ht hhc hb
    have hne : g.msgType ≠ "handshake" := by rw [ht]; decide
    simp only [processTextMessage, hg, ht, if_neg hne, if_pos rfl, hhc, hb]
    simp
  · intro g hg ht hb
    have h1 : g.msgType ≠ "handshake" := by rw [ht]; decide
    have h2 : g.msgType ≠ "simulate" := by rw [ht]; decide
    simp only [processTextMessage, hg, if_neg h1, if_neg h2, ht, if_pos rfl, hb]
    simp
  · intro g hg ht hb
    have h1 : g.msgType ≠ "handshake" := by rw [ht]; decide
    have h2 : g.msgType ≠ "simulate" := by rw [ht]; decide
    have h3 : g.msgType ≠ "ping" := by rw [ht]; decide
    simp only [processTextMessage, hg, if_neg h1, if_neg h2, if_neg h3, ht,
      if_pos rfl, hb]
    simp

/-- C4 witness: the generic-decode-failure case at a concrete input. -/
theorem malformed_message_handling_witness :
    ({ generic := none, handshakeBody := none, simulateBody := none,
       pingBody := none, cancelBody := none } : InboundText).generic = none ∧
    processTextMessage false
      { ltspicePath := none, isSimulating := false, wsConnections := 1,
        simulationCount := 0, lastSimulationTime := none,
        currentSimulationId := none, cancelRequested := false,
        currentProcessId := 0 }
      { generic := none, handshakeBody := none, simulateBody := none,
        pingBody := none, cancelBody := none } "r" 0 = (.dropped, false) :=
  ⟨rfl,
   (malformed_message_handling false
      { ltspicePath := none, isSimulating := false, wsConnections := 1,
        simulationCount := 0, lastSimulationTime := none,
        currentSimulationId := none, cancelRequested := false,
        currentProcessId := 0 }
      { generic := none, handshakeBody := none, simulateBody := none,
        pingBody := none, cancelBody := none } "r" 0).1 rfl⟩

/-- C10: `handshake_complete` is overwritten by every handshake response, so
after processing a handshake from a disallowed origin the flag is `false`
even if it was `true` before, and a subsequent simulate message is then
silently dropped (no response, no spawned job). -/
theorem failed_handshake_resets_session
    (st st' : AppState) (m m' : InboundText) (g g' : GenericMessage)
    (hb : HandshakeRequest) (sb : SimulationRequest)
    (respId respId' : String) (ts ts' : Nat)
    (hg : m.generic = some g) (ht : g.msgType = "handshake")
    (hb1 : m.handshakeBody = some hb)
    (horigin : isOriginAllowed hb.origin = false)
    (hg' : m'.generic = some g') (ht' : g'.msgType = "simulate")
    (_hs' : m'.simulateBody = some sb) :
    (processTextMessage true st m respId ts).2 = false ∧
    processTextMessage false st' m' respId' ts' = (.dropped, false) := by
  constructor
  · simp only [processTextMessage, hg, ht, if_pos rfl, hb1]
    simp only [handleHandshake, horigin, Bool.false_eq_true, not_false_eq_true,
      if_true]
  · have hne : g'.msgType ≠ "handshake" := by rw [ht']; decide
    simp only [processTextMessage, hg', if_neg hne, ht', if_pos rfl]
    simp

/-- C10 witness: a concrete session that was `Active` goes back to
not-handshaken after a bad-origin handshake, and a concrete simulate is then
dropped. -/
theorem failed_handshake_resets_session_witness :
    (processTextMessage true
      { ltspicePath := none, isSimulating := false, wsConnections := 1,
        simulationCount := 0, lastSimulationTime := none,
        currentSimulationId := none, cancelRequested := false,
        currentProcessId := 0 }
      { generic := some { id := "h1", msgType := "handshake" },
        handshakeBody := some
          { id := "h1", msgType := "handshake", origin := "https://evil.example",
            version := "1.0.0", timestamp := 0 },
        simulateBody := none, pingBody := none, cancelBody := none }
      "r" 0).2 = false ∧
    processTextMessage false
      { ltspicePath := none, isSimulating := false, wsConnections := 1,
        simulationCount := 0, lastSimulationTime := none,
        currentSimulationId := none, cancelRequested := false,
        currentProcessId := 0 }
      { generic := some { id := "s1", msgType := "simulate" },
        handshakeBody := none,
        simulateBody := some
          { id := "s1", msgType := "simulate", netlist := ".end",
            waveformQuality := "fast", timeout := none, timestamp := 0 },
        pingBody := none, cancelBody := none }
      "r" 1 = (.dropped, false) :=
  failed_handshake_resets_session _ _ _ _ _ _ _ _ _ _ _ _
    rfl rfl rfl (by decide) rfl rfl rfl

/-- C8 counterexample: on a netlist with no `.end` line, `prepare_netlist`
does *not* append the injected directives and a terminal directive — it
returns the netlist unchanged, with no `.backanno`, no `.save` and no
`.end`. -/
theorem prepare_netlist_missing_end_counterexample :
    prepareNetlist "V1 in 0 1" "balanced" = "V1 in 0 1" ∧
    containsStr (lowerStr (prepareNetlist "V1 in 0 1" "balanced")) ".backanno"
      = false ∧
    containsStr (lowerStr (prepareNetlist "V1 in 0 1" "balanced")) ".end"
      = false := by
  refine ⟨by decide, by decide, by decide⟩

/-- C8 as amended: with no `.end` line, only `prepare_ngspice_netlist` (and
only when no `.control` block exists) appends its injected directives plus a
terminal `.end`; `prepare_netlist` inserts directives solely before an
existing `.end` line and otherwise returns the netlist's lines unchanged,
without directives and without a terminal directive. -/
theorem missing_end_directive_handling (netlist q rawPath : String)
    (hnoEnd : ∀ l ∈ rustLines netlist, isEndLine l = false)
    (hnoCtl : containsStr (lowerStr netlist) ".control" = false) :
    prepareNetlist netlist q = joinLines (rustLines netlist) ∧
    prepareNgspiceNetlist netlist rawPath =
      joinLines (rustLines netlist ++ ngControlSection rawPath ++ [".end"]) := by
  have hnone : (rustLines netlist).findIdx? isEndLine = none :=
    List.findIdx?_eq_none_iff.mpr hnoEnd
  constructor
  · simp only [prepareNetlist, hnone, ite_self]
  · simp only [prepareNgspiceNetlist, hnoCtl, Bool.false_eq_true,
      if_false, hnone]

/-! ### String lemmas used by the directive-injection proofs -/

theorem containsStr_iff {hay pat : String} :
    containsStr hay pat = true ↔ pat.data <:+: hay.data := by
  unfold containsStr
  rw [List.any_eq_true]
  constructor
  · rintro ⟨t, ht, hp⟩
    exact List.infix_iff_prefix_suffix.mpr
      ⟨t, List.isPrefixOf_iff_prefix.mp hp, (List.mem_tails _ _).mp ht⟩
  · intro h
    obtain ⟨t, hpre, hsuf⟩ := List.infix_iff_prefix_suffix.mp h
    exact ⟨t, (List.mem_tails _ _).mpr hsuf, List.isPrefixOf_iff_prefix.mpr hpre⟩

theorem lowerStr_data (s : String) : (lowerStr s).data = s.data.map lowerChar := rfl

theorem infix_of_pfx {α : Type _} {x l : List α} (h : x <+: l) : x <:+: l := by
  obtain ⟨t, rfl⟩ := h
  exact ⟨[], t, rfl⟩

theorem infix_cons_of_infx {α : Type _} {a : α} {x l : List α}
    (h : x <:+: l) : x <:+: a :: l := by
  obtain ⟨s, t, rfl⟩ := h
  exact ⟨a :: s, t, rfl⟩

theorem splitOnCh_ne_nil (sep : Char) : ∀ l, splitOnCh sep l ≠ [] := by
  intro l
  cases l with
  | nil => simp [splitOnCh]
  | cons c cs =>
    by_cases h : c = sep
    · simp [splitOnCh, h]
    · simp only [splitOnCh, if_neg h]
      cases hs : splitOnCh sep cs <;> simp

/-- Every piece produced by `splitOnCh` is an infix of the input and is free
of the separator; the first piece is moreover a prefix. -/
theorem splitOnCh_strong (sep : Char) :
    ∀ l : List Char,
      (∀ t ∈ splitOnCh sep l, t <:+: l ∧ sep ∉ t) ∧
      (∀ h tl, splitOnCh sep l = h :: tl → h <+: l) := by
  intro l
  induction l with
  | nil =>
    constructor
    · intro t ht
      simp only [splitOnCh, List.mem_singleton] at ht
      subst ht
      exact ⟨List.nil_infix, by simp⟩
    · intro h tl he
      simp only [splitOnCh] at he
      injection he with h1 h2
      subst h1
      exact List.nil_prefix
  | cons c cs ih =>
    by_cases hc : c = sep
    · have he : splitOnCh sep (c :: cs) = [] :: splitOnCh sep cs := by
        simp [splitOnCh, hc]
      constructor
      · intro t ht
        rw [he] at ht
        rcases List.mem_cons.mp ht with rfl | h1
        · exact ⟨List.nil_infix, by simp⟩
        · obtain ⟨hinf, hsep⟩ := ih.1 t h1
          exact ⟨infix_cons_of_infx hinf, hsep⟩
      · intro h tl hhe
        rw [he] at hhe
        injection hhe with h1 h2
        rw [← h1]
        exact List.nil_prefix
    · rcases hsp : splitOnCh sep cs with _ | ⟨l', ls⟩
      · exact absurd hsp (splitOnCh_ne_nil sep cs)
      · have he : splitOnCh sep (c :: cs) = (c :: l') :: ls := by
          simp [splitOnCh, hc, hsp]
        have hl' : l' <+: cs := ih.2 l' ls hsp
        have hl'mem : l' ∈ splitOnCh sep cs := by
          rw [hsp]; exact List.mem_cons_self _ _
        constructor
        · intro t ht
          rw [he] at ht
          rcases List.mem_cons.mp ht with rfl | h1
          · obtain ⟨r, hr⟩ := hl'
            refine ⟨⟨[], r, by simp [hr]⟩, ?_⟩
            intro hmem
            rcases List.mem_cons.mp hmem with h | h
            · exact hc h.symm
            · exact (ih.1 l' hl'mem).2 h
          · obtain ⟨hinf, hsep⟩ := ih.1 t (by rw [hsp]; exact List.mem_cons_of_mem _ h1)
            exact ⟨infix_cons_of_infx hinf, hsep⟩
        · intro h tl hhe
          rw [he] at hhe
          injection hhe with h1 h2
          rw [← h1]
          obtain ⟨r, hr⟩ := hl'
          exact ⟨r, by simp [hr]⟩

theorem mem_splitOnCh {sep : Char} {t l : List Char}
    (h : t ∈ splitOnCh sep l) : t <:+: l ∧ sep ∉ t :=
  (splitOnCh_strong sep l).1 t h

theorem stripCR_pfx (l : List Char) : stripCR l <+: l := by
  unfold stripCR
  split
  · rw [List.dropLast_eq_take]; exact List.take_prefix _ _
  · exact List.prefix_refl _

/-- A line of `rustLines s` sits inside `s` and contains no newline. -/
theorem mem_rustLines {l s : String} (h : l ∈ rustLines s) :
    l.data <:+: s.data ∧ '\n' ∉ l.data := by
  unfold rustLines at h
  obtain ⟨seg, hseg, rfl⟩ := List.mem_map.mp h
  have hseg' : seg ∈ splitOnCh '\n' s.data := by
    unfold dropFinalEmptySeg at hseg
    split at hseg
    · exact (List.dropLast_sublist _).mem hseg
    · exact hseg
  obtain ⟨hinf, hsep⟩ := mem_splitOnCh hseg'
  have hpre := stripCR_pfx seg
  refine ⟨(infix_of_pfx hpre).trans hinf, ?_⟩
  intro hmem
  exact hsep (hpre.sublist.mem hmem)

theorem joinSegs_cons_cons (c d : List Char) (ds : List (List Char)) :
    joinSegs (c :: d :: ds) = c ++ '\n' :: joinSegs (d :: ds) := rfl

theorem infix_joinSegs {t : List Char} :
    ∀ {M : List (List Char)}, t ∈ M → t <:+: joinSegs M := by
  intro M
  induction M with
  | nil => intro h; simp at h
  | cons c M' ih =>
    intro h
    rcases List.mem_cons.mp h with rfl | h1
    · cases M' with
      | nil => exact List.infix_refl _
      | cons d ds =>
        rw [joinSegs_cons_cons]
        exact ⟨[], '\n' :: joinSegs (d :: ds), rfl⟩
    · cases M' with
      | nil => simp at h1
      | cons d ds =>
        obtain ⟨s, u, hsu⟩ := ih h1
        refine ⟨c ++ '\n' :: s, u, ?_⟩
        rw [joinSegs_cons_cons, ← hsu]
        simp [List.append_assoc]

theorem splitOnCh_eq_single (sep : Char) :
    ∀ l : List Char, sep ∉ l → splitOnCh sep l = [l] := by
  intro l
  induction l with
  | nil => intro _; rfl
  | cons c cs ih =>
    intro h
    have hc : c ≠ sep := fun hh => h (by simp [hh.symm])
    simp only [splitOnCh, if_neg hc,
      ih (fun hm => h (List.mem_cons_of_mem _ hm))]

theorem splitOnCh_append_cons (sep : Char) :
    ∀ a r : List Char, sep ∉ a →
      splitOnCh sep (a ++ sep :: r) = a :: splitOnCh sep r := by
  intro a
  induction a with
  | nil => intro r _; simp [splitOnCh]
  | cons c a' ih =>
    intro r h
    have hc : c ≠ sep := fun hh => h (by simp [hh.symm])
    simp only [List.cons_append, splitOnCh, if_neg hc, List.append_eq,
      ih r (fun hm => h (List.mem_cons_of_mem _ hm))]

theorem splitOnCh_joinSegs :
    ∀ M : List (List Char), M ≠ [] → (∀ t ∈ M, '\n' ∉ t) →
      splitOnCh '\n' (joinSegs M) = M := by
  intro M
  induction M with
  | nil => intro h _; exact absurd rfl h
  | cons c M' ih =>
    intro _ hns
    cases M' with
    | nil => exact splitOnCh_eq_single '\n' c (hns c (by simp))
    | cons d ds =>
      rw [joinSegs_cons_cons,
        splitOnCh_append_cons '\n' c _ (hns c (by simp)),
        ih (by simp) (fun t ht => hns t (List.mem_cons_of_mem _ ht))]

theorem rustLines_joinLines {M : List String} (hM : M ≠ [])
    (hns : ∀ l ∈ M, '\n' ∉ l.data) :
    rustLines (joinLines M) =
      (dropFinalEmptySeg (M.map (·.data))).map (fun l => ⟨stripCR l⟩) := by
  unfold rustLines joinLines
  rw [show (String.mk (joinSegs (M.map (·.data)))).data = joinSegs (M.map (·.data)) from rfl]
  rw [splitOnCh_joinSegs (M.map (·.data)) (by simpa using hM) ?_]
  intro t ht
  obtain ⟨l, hl, rfl⟩ := List.mem_map.mp ht
  exact hns l hl

theorem insertIdx_perm {α : Type _} (a : α) :
    ∀ (n : Nat) (l : List α), n ≤ l.length →
      List.Perm (l.insertIdx n a) (a :: l) := by
  intro n
  induction n with
  | zero => intro l _; rw [List.insertIdx_zero]
  | succ n ih =>
    intro l h
    cases l with
    | nil => exact absurd h (Nat.not_succ_le_zero n)
    | cons b bs =>
      rw [List.insertIdx_succ_cons]
      exact (List.Perm.cons b (ih bs (Nat.le_of_succ_le_succ h))).trans
        (List.Perm.swap a b bs)

theorem findIdx?_go_bounds {α : Type _} {p : α → Bool} :
    ∀ (l : List α) (s i : Nat),
      List.findIdx? p l s = some i → s ≤ i ∧ i < s + l.length := by
  intro l
  induction l with
  | nil => intro s i h; rw [List.findIdx?_nil] at h; cases h
  | cons x xs ih =>
    intro s i h
    rw [List.findIdx?_cons] at h
    split at h
    · cases h
      refine ⟨Nat.le_refl _, ?_⟩
      simp only [List.length_cons]
      omega
    · have := ih (s + 1) i h
      simp only [List.length_cons]
      omega

theorem findIdx?_some_lt {α : Type _} {p : α → Bool} {l : List α} {i : Nat}
    (h : l.findIdx? p = some i) : i < l.length := by
  have := findIdx?_go_bounds l 0 i h
  omega

theorem findIdx?_isSome_of_mem {α : Type _} {p : α → Bool} {l : List α} {x : α}
    (hm : x ∈ l) (hx : p x = true) :
    ∃ i, l.findIdx? p = some i ∧ i < l.length := by
  cases hfi : l.findIdx? p with
  | none =>
    rw [List.findIdx?_eq_none_iff] at hfi
    rw [hfi x hm] at hx
    cases hx
  | some i => exact ⟨i, rfl, findIdx?_some_lt hfi⟩

theorem filter_dropFinalEmptySeg {Q : List Char → Bool} (hQ : Q [] = false)
    (L : List (List Char)) :
    ((dropFinalEmptySeg L).filter Q).length = (L.filter Q).length := by
  unfold dropFinalEmptySeg
  split
  · rename_i hlast
    have hL : L = L.dropLast ++ [([] : List Char)] :=
      (List.dropLast_append_getLast? [] (by rw [Option.mem_def]; exact hlast)).symm
    conv_rhs => rw [hL]
    rw [List.filter_append]
    simp [List.filter, hQ]
  · rfl

/-- Core of the directive counting: counting matching lines of a joined line
list reduces to counting (after the one-CR strip of `lines`) over the list
itself. -/
theorem dirLineCount_joinLines (M : List String) (pat : String) (hM : M ≠ [])
    (hnl : ∀ l ∈ M, '\n' ∉ l.data) (hpat : containsStr "" pat = false) :
    dirLineCount (joinLines M) pat =
      (M.filter (fun l => lineHas pat ⟨stripCR l.data⟩)).length := by
  unfold dirLineCount
  rw [rustLines_joinLines hM hnl, List.filter_map, List.length_map,
    filter_dropFinalEmptySeg (show lineHas pat ⟨stripCR []⟩ = false from hpat),
    List.filter_map, List.length_map]
  rfl

/-- A line body that sits (as characters) inside `s` and whose lowercased
form contains `pat` forces `s`'s lowercased form to contain `pat`. -/
theorem line_contains_transfer {s pat : String} {d : List Char}
    (hinf : d <:+: s.data) (h : lineHas pat ⟨d⟩ = true) :
    containsStr (lowerStr s) pat = true := by
  unfold lineHas at h
  have h1 : pat.data <:+: d.map lowerChar := containsStr_iff.mp h
  have h2 : d.map lowerChar <:+: (lowerStr s).data := by
    rw [lowerStr_data]
    exact List.IsInfix.map lowerChar hinf
  exact containsStr_iff.mpr (h1.trans h2)

/-- Lines coming from the source netlist can never match a pattern the whole
lowercased netlist does not contain (CR-stripped once or twice). -/
theorem source_line_not_has {netlist pat l : String}
    (hmem : l ∈ rustLines netlist)
    (hb : containsStr (lowerStr netlist) pat = false) :
    lineHas pat ⟨stripCR l.data⟩ = false ∧
    lineHas pat ⟨stripCR (stripCR l.data)⟩ = false := by
  have hinf := (mem_rustLines hmem).1
  have t1 : stripCR l.data <:+: netlist.data :=
    (infix_of_pfx (stripCR_pfx _)).trans hinf
  have t2 : stripCR (stripCR l.data) <:+: netlist.data :=
    (infix_of_pfx ((stripCR_pfx _).trans (stripCR_pfx _))).trans hinf
  constructor
  · cases hx : lineHas pat ⟨stripCR l.data⟩
    · rfl
    · exact absurd (line_contains_transfer t1 hx) (by simp [hb])
  · cases hx : lineHas pat ⟨stripCR (stripCR l.data)⟩
    · rfl
    · exact absurd (line_contains_transfer t2 hx) (by simp [hb])

/-- C8 witness: both preprocessors at the concrete netlist `"V1 in 0 1"`. -/
theorem missing_end_directive_handling_witness :
    (∀ l ∈ rustLines "V1 in 0 1", isEndLine l = false) ∧
    containsStr (lowerStr "V1 in 0 1") ".control" = false ∧
    prepareNgspiceNetlist "V1 in 0 1" "/tmp/c.raw" =
      joinLines (rustLines "V1 in 0 1" ++ ngControlSection "/tmp/c.raw" ++
        [".end"]) :=
  ⟨by decide, by decide,
   (missing_end_directive_handling "V1 in 0 1" "balanced" "/tmp/c.raw"
      (by decide) (by decide)).2⟩

/-- C9 counterexample: on a netlist with no `.end` line, applying
`prepare_netlist` twice yields *zero* back-annotation directives, not
exactly one. -/
theorem prepare_netlist_idempotence_counterexample :
    dirLineCount
      (prepareNetlist (prepareNetlist "V1 in 0 1" "balanced") "balanced")
      ".backanno" = 0 ∧ (0 : Nat) ≠ 1 := by
  exact ⟨by decide, by decide⟩

/-- C9 as amended: for a netlist that has a `.end` line and whose lowercased
text does not already mention `.backanno` / `.save` / `.options plotwinsize`,
one application of `prepare_netlist` yields exactly one back-annotation line
and exactly one save line, and the second application inserts nothing more:
the counts are still exactly one.  (Without a `.end` line nothing is
injected at all, and pre-existing occurrences suppress injection, so the
original unconditional "exactly one" fails.) -/
theorem prepare_netlist_directive_idempotence (netlist q : String)
    (hEnd : ∃ l, l ∈ rustLines netlist ∧ isEndLine l = true)
    (hB : containsStr (lowerStr netlist) ".backanno" = false)
    (hS : containsStr (lowerStr netlist) ".save" = false)
    (hO : containsStr (lowerStr netlist) ".options plotwinsize" = false) :
    dirLineCount (prepareNetlist netlist q) ".backanno" = 1 ∧
    dirLineCount (prepareNetlist netlist q) ".save" = 1 ∧
    dirLineCount (prepareNetlist (prepareNetlist netlist q) q) ".backanno" = 1 ∧
    dirLineCount (prepareNetlist (prepareNetlist netlist q) q) ".save" = 1 := by
  obtain ⟨lend, hlmem, hlend⟩ := hEnd
  obtain ⟨i0, hi0, hi0l⟩ := findIdx?_isSome_of_mem hlmem hlend
  have hmem1 : lend ∈ (rustLines netlist).insertIdx i0 ".backanno" :=
    (List.mem_insertIdx (Nat.le_of_lt hi0l)).mpr (Or.inr hlmem)
  obtain ⟨i1, hi1, hi1l⟩ := findIdx?_isSome_of_mem hmem1 hlend
  have hmem2 : lend ∈
      (((rustLines netlist).insertIdx i0 ".backanno").insertIdx i1 ".save all") :=
    (List.mem_insertIdx (Nat.le_of_lt hi1l)).mpr (Or.inr hmem1)
  obtain ⟨i2, hi2, hi2l⟩ := findIdx?_isSome_of_mem hmem2 hlend
  set opt : String := ".options plotwinsize=" ++ toString (plotWinSize q)
    with hopt
  set ls3 : List String :=
      ((((rustLines netlist).insertIdx i0 ".backanno").insertIdx
        i1 ".save all").insertIdx i2 opt) with hls3
  have hf1 : prepareNetlist netlist q = joinLines ls3 := by
    rw [prepareNetlist]
    simp only [hB, hS, hO, Bool.false_eq_true, if_false, hi0, hi1, hi2]
  have hoptc : opt = ".options plotwinsize=128" ∨
      opt = ".options plotwinsize=0" := by
    rw [hopt]
    unfold plotWinSize
    split
    · left; rfl
    · split
      · right; rfl
      · split
        · right; rfl
        · right; rfl
  have hperm : List.Perm ls3
      (opt :: ".save all" :: ".backanno" :: rustLines netlist) := by
    rw [hls3]
    refine (insertIdx_perm opt i2 _ (Nat.le_of_lt hi2l)).trans ?_
    refine List.Perm.cons opt ?_
    refine (insertIdx_perm ".save all" i1 _ (Nat.le_of_lt hi1l)).trans ?_
    exact List.Perm.cons _ (insertIdx_perm ".backanno" i0 _ (Nat.le_of_lt hi0l))
  have hmem3 : ∀ l ∈ ls3,
      l = opt ∨ l = ".save all" ∨ l = ".backanno" ∨ l ∈ rustLines netlist := by
    intro l hl
    have := hperm.mem_iff.mp hl
    simpa using this
  have hnl3 : ∀ l ∈ ls3, '\n' ∉ l.data := by
    intro l hl
    rcases hmem3 l hl with rfl | rfl | rfl | hm
    · rcases hoptc with h | h <;> (rw [h]; decide)
    · decide
    · decide
    · exact (mem_rustLines hm).2
  have hne3 : ls3 ≠ [] := by
    intro hx
    rw [hx] at hperm
    exact absurd hperm.length_eq (by simp)
  -- counting matching lines of the first application
  have hcount1 : ∀ pat : String, containsStr "" pat = false →
      dirLineCount (joinLines ls3) pat =
        ((opt :: ".save all" :: ".backanno" :: rustLines netlist).filter
          (fun l => lineHas pat ⟨stripCR l.data⟩)).length := by
    intro pat hpat
    rw [dirLineCount_joinLines ls3 pat hne3 hnl3 hpat]
    exact (hperm.filter _).length_eq
  have hzero1 : ∀ pat : String, containsStr (lowerStr netlist) pat = false →
      ((rustLines netlist).filter
        (fun l => lineHas pat ⟨stripCR l.data⟩)) = [] := by
    intro pat hp
    rw [List.filter_eq_nil_iff]
    intro l hl
    simp only [Bool.not_eq_true]
    exact (source_line_not_has hl hp).1
  have hzero2 : ∀ pat : String, containsStr (lowerStr netlist) pat = false →
      ((rustLines netlist).filter
        (fun l => lineHas pat ⟨stripCR (stripCR l.data)⟩)) = [] := by
    intro pat hp
    rw [List.filter_eq_nil_iff]
    intro l hl
    simp only [Bool.not_eq_true]
    exact (source_line_not_has hl hp).2
  have hcB1 : dirLineCount (prepareNetlist netlist q) ".backanno" = 1 := by
    rw [hf1, hcount1 ".backanno" (by decide)]
    have e1 : lineHas ".backanno" ⟨stripCR opt.data⟩ = false := by
      rcases hoptc with h | h <;> (rw [h]; decide)
    have e2 : lineHas ".backanno" ⟨stripCR (".save all" : String).data⟩
        = false := by decide
    have e3 : lineHas ".backanno" ⟨stripCR (".backanno" : String).data⟩
        = true := by decide
    rw [List.filter_cons_of_neg (by simp [e1]),
      List.filter_cons_of_neg (by simp [e2]),
      List.filter_cons_of_pos (by simp [e3]), hzero1 ".backanno" hB]
    rfl
  have hcS1 : dirLineCount (prepareNetlist netlist q) ".save" = 1 := by
    rw [hf1, hcount1 ".save" (by decide)]
    have e1 : lineHas ".save" ⟨stripCR opt.data⟩ = false := by
      rcases hoptc with h | h <;> (rw [h]; decide)
    have e2 : lineHas ".save" ⟨stripCR (".save all" : String).data⟩
        = true := by decide
    have e3 : lineHas ".save" ⟨stripCR (".backanno" : String).data⟩
        = false := by decide
    rw [List.filter_cons_of_neg (by simp [e1]),
      List.filter_cons_of_pos (by simp [e2]),
      List.filter_cons_of_neg (by simp [e3]), hzero1 ".save" hS]
    rfl
  -- the second application inserts nothing: each check is satisfied
  have hjmem : ∀ l ∈ ls3, l.data <:+: (joinLines ls3).data := by
    intro l hl
    exact infix_joinSegs (List.mem_map_of_mem _ hl)
  have hBmem : (".backanno" : String) ∈ ls3 := hperm.mem_iff.mpr (by simp)
  have hSmem : (".save all" : String) ∈ ls3 := hperm.mem_iff.mpr (by simp)
  have hOmem : opt ∈ ls3 := hperm.mem_iff.mpr (by simp)
  have cB : containsStr (lowerStr (joinLines ls3)) ".backanno" = true := by
    apply containsStr_iff.mpr
    have h2 := List.IsInfix.map lowerChar (hjmem _ hBmem)
    have h3 : List.map lowerChar (".backanno" : String).data
        = (".backanno" : String).data := by decide
    rw [h3, ← lowerStr_data] at h2
    exact h2
  have cS : containsStr (lowerStr (joinLines ls3)) ".save" = true := by
    apply containsStr_iff.mpr
    have h0 : (".save" : String).data <:+: (".save all" : String).data := by
      decide
    have h2 := List.IsInfix.map lowerChar (h0.trans (hjmem _ hSmem))
    have h3 : List.map lowerChar (".save" : String).data
        = (".save" : String).data := by decide
    rw [h3, ← lowerStr_data] at h2
    exact h2
  have cO : containsStr (lowerStr (joinLines ls3)) ".options plotwinsize"
      = true := by
    apply containsStr_iff.mpr
    have h0 : (".options plotwinsize" : String).data <:+: opt.data := by
      rcases hoptc with h | h <;> (rw [h]; decide)
    have h2 := List.IsInfix.map lowerChar (h0.trans (hjmem _ hOmem))
    have h3 : List.map lowerChar (".options plotwinsize" : String).data
        = (".options plotwinsize" : String).data := by decide
    rw [h3, ← lowerStr_data] at h2
    exact h2
  have hf2 : prepareNetlist (joinLines ls3) q
      = joinLines (rustLines (joinLines ls3)) := by
    rw [prepareNetlist]
    simp only [cB, cS, cO, if_true]
  have hM' : rustLines (joinLines ls3) =
      (dropFinalEmptySeg (ls3.map (·.data))).map (fun l => ⟨stripCR l⟩) :=
    rustLines_joinLines hne3 hnl3
  have hnlM' : ∀ l ∈ rustLines (joinLines ls3), '\n' ∉ l.data :=
    fun l hl => (mem_rustLines hl).2
  have hlen3 : 4 ≤ ls3.length := by
    have h1 := hperm.length_eq
    have h2 : 1 ≤ (rustLines netlist).length := by
      cases hrl : rustLines netlist with
      | nil => rw [hrl] at hlmem; cases hlmem
      | cons a as => simp
    simp only [List.length_cons] at h1
    omega
  have hneM' : rustLines (joinLines ls3) ≠ [] := by
    rw [hM']
    intro hx
    have hlen := congrArg List.length hx
    simp only [List.length_map, List.length_nil] at hlen
    unfold dropFinalEmptySeg at hlen
    split at hlen
    · rw [List.length_dropLast, List.length_map] at hlen; omega
    · rw [List.length_map] at hlen; omega
  -- counting for the second application: the once-stripped lines get
  -- stripped a second time
  have hcount2 : ∀ pat : String, containsStr "" pat = false →
      dirLineCount (prepareNetlist (prepareNetlist netlist q) q) pat =
        ((opt :: ".save all" :: ".backanno" :: rustLines netlist).filter
          (fun l => lineHas pat ⟨stripCR (stripCR l.data)⟩)).length := by
    intro pat hpat
    rw [hf1, hf2,
      dirLineCount_joinLines _ pat hneM' hnlM' hpat, hM',
      List.filter_map, List.length_map,
      filter_dropFinalEmptySeg
        (show lineHas pat ⟨stripCR (stripCR [])⟩ = false from hpat),
      List.filter_map, List.length_map]
    exact (hperm.filter _).length_eq
  have hcB2 : dirLineCount (prepareNetlist (prepareNetlist netlist q) q)
      ".backanno" = 1 := by
    rw [hcount2 ".backanno" (by decide)]
    have e1 : lineHas ".backanno" ⟨stripCR (stripCR opt.data)⟩ = false := by
      rcases hoptc with h | h <;> (rw [h]; decide)
    have e2 : lineHas ".backanno"
        ⟨stripCR (stripCR (".save all" : String).data)⟩ = false := by decide
    have e3 : lineHas ".backanno"
        ⟨stripCR (stripCR (".backanno" : String).data)⟩ = true := by decide
    rw [List.filter_cons_of_neg (by simp [e1]),
      List.filter_cons_of_neg (by simp [e2]),
      List.filter_cons_of_pos (by simp [e3]), hzero2 ".backanno" hB]
    rfl
  have hcS2 : dirLineCount (prepareNetlist (prepareNetlist netlist q) q)
      ".save" = 1 := by
    rw [hcount2 ".save" (by decide)]
    have e1 : lineHas ".save" ⟨stripCR (stripCR opt.data)⟩ = false := by
      rcases hoptc with h | h <;> (rw [h]; decide)
    have e2 : lineHas ".save"
        ⟨stripCR (stripCR (".save all" : String).data)⟩ = true := by decide
    have e3 : lineHas ".save"
        ⟨stripCR (stripCR (".backanno" : String).data)⟩ = false := by decide
    rw [List.filter_cons_of_neg (by simp [e1]),
      List.filter_cons_of_pos (by simp [e2]),
      List.filter_cons_of_neg (by simp [e3]), hzero2 ".save" hS]
    rfl
  exact ⟨hcB1, hcS1, hcB2, hcS2⟩

/-- C9 witness: the amended statement at a concrete netlist. -/
theorem prepare_netlist_directive_idempotence_witness :
    (∃ l, l ∈ rustLines "V1 in 0 1\n.tran 1m\n.end" ∧ isEndLine l = true) ∧
    dirLineCount (prepareNetlist "V1 in 0 1\n.tran 1m\n.end" "fast")
      ".backanno" = 1 :=
  ⟨⟨".end", by decide, by decide⟩,
   (prepare_netlist_directive_idempotence "V1 in 0 1\n.tran 1m\n.end" "fast"
      ⟨".end", by decide, by decide⟩ (by decide) (by decide) (by decide)).1⟩

/-! ### Lemmas on the result codec -/

theorem seqOpt_length {α : Type _} :
    ∀ {l : List (Option α)} {r : List α}, seqOpt l = some r →
      r.length = l.length := by
  intro l
  induction l with
  | nil =>
    intro r h
    cases h
    rfl
  | cons o os ih =>
    intro r h
    cases o with
    | none => cases h
    | some a =>
      simp only [seqOpt, Option.map_eq_some'] at h
      obtain ⟨as, hs, rfl⟩ := h
      simp [ih hs]

theorem seqOpt_mem {α : Type _} :
    ∀ {l : List (Option α)} {r : List α}, seqOpt l = some r →
      ∀ x ∈ r, some x ∈ l := by
  intro l
  induction l with
  | nil =>
    intro r h x hx
    cases h
    cases hx
  | cons o os ih =>
    intro r h x hx
    cases o with
    | none => cases h
    | some a =>
      simp only [seqOpt, Option.map_eq_some'] at h
      obtain ⟨as, hs, rfl⟩ := h
      rcases List.mem_cons.mp hx with rfl | hx1
      · exact List.mem_cons_self _ _
      · exact List.mem_cons_of_mem _ (ih hs x hx1)

theorem decodeBodyA_lengths {bd : List Nat} {numPoints numVars : Nat}
    {isDouble : Bool} {allData : List (List Val)}
    (h : decodeBodyA bd numPoints numVars isDouble = some allData) :
    allData.length = numVars ∧ ∀ c ∈ allData, c.length = numPoints := by
  unfold decodeBodyA at h
  constructor
  · have := seqOpt_length h
    simpa using this
  · intro c hc
    have hmem := seqOpt_mem h c hc
    obtain ⟨v, _, heq⟩ := List.mem_map.mp hmem
    have := seqOpt_length heq
    simpa using this

/-- C6: whenever the binary region after the located marker is shorter than
point-count × per-point width, Format-A decoding fails with an error. -/
theorem format_a_truncation_fails (data : List Nat) (pos : Nat)
    (hmark : findBinaryMarkerA data = some pos)
    (hshort : data.length - pos <
      (headerAOf data).numPoints *
        bppA (headerAOf data).numVars (headerAOf data).isDouble) :
    (parseRawFile data).isOk = false := by
  unfold parseRawFile
  split
  · rfl
  · split
    · rfl
    · rename_i bs hbs
      rw [hmark] at hbs
      injection hbs with hbp
      rw [if_pos (by rw [List.length_drop, ← hbp]; exact hshort)]
      rfl

set_option maxRecDepth 100000 in
/-- C6 witness: the truncated Format-A artifact `exTruncA` (expected 12 data
bytes, 4 present). -/
theorem format_a_truncation_fails_witness :
    findBinaryMarkerA exTruncA = some 262 ∧
    exTruncA.length - 262 <
      (headerAOf exTruncA).numPoints *
        bppA (headerAOf exTruncA).numVars (headerAOf exTruncA).isDouble ∧
    (parseRawFile exTruncA).isOk = false :=
  ⟨by decide, by decide,
   format_a_truncation_fails exTruncA 262 (by decide) (by decide)⟩

theorem parseRawFile_ok {data : List Nat} {r : SimulationResults}
    (h : parseRawFile data = Except.ok r) :
    ∃ allData : List (List Val),
      allData.length = (headerAOf data).numVars ∧
      (∀ c ∈ allData, c.length = (headerAOf data).numPoints) ∧
      r.time = allData.getD 0 [] ∧
      r.traces = mkTraces unitOfTypeA (headerAOf data).vars allData := by
  unfold parseRawFile at h
  split at h
  · cases h
  · split at h
    · cases h
    · split at h
      · cases h
      · split at h
        · cases h
        · rename_i allData hAll
          cases h
          obtain ⟨h1, h2⟩ := decodeBodyA_lengths hAll
          exact ⟨allData, h1, h2, rfl, rfl⟩

theorem parseNgspiceRawFile_ok {data : List Nat} {r : SimulationResults}
    (h : parseNgspiceRawFile data = Except.ok r) :
    ∃ allData : List (List Val),
      (allData = ngBinColumns (data.drop (ngHeaderOf data).dataStart)
          (ngHeaderOf data).numVars (ngHeaderOf data).numPoints
          (ngHeaderOf data).isComplex ∨
        ∃ cps, utf8Decode (data.drop (ngHeaderOf data).dataStart) = some cps ∧
          allData = ngAsciiColumns (scalarsToStr cps)
            (ngHeaderOf data).numVars (ngHeaderOf data).isComplex) ∧
      r.time = allData.getD 0 [] ∧
      r.traces = mkTraces unitOfTypeNg (ngHeaderOf data).vars allData := by
  have hfin : ∀ (allData : List (List Val)),
      ngFinish data allData = Except.ok r →
      r.time = allData.getD 0 [] ∧
      r.traces = mkTraces unitOfTypeNg (ngHeaderOf data).vars allData := by
    intro allData hF
    unfold ngFinish at hF
    split at hF
    · cases hF
    · cases hF
      exact ⟨rfl, rfl⟩
  unfold parseNgspiceRawFile at h
  split at h
  · cases h
  · split at h
    · obtain ⟨h1, h2⟩ := hfin _ h
      exact ⟨_, Or.inl rfl, h1, h2⟩
    · split at h
      · rename_i cps hcps
        obtain ⟨h1, h2⟩ := hfin _ h
        exact ⟨_, Or.inr ⟨cps, hcps, rfl⟩, h1, h2⟩
      · cases h

theorem mkTraces_map (u : String → String) (vars : List (String × String))
    (d : List (List Val)) :
    (mkTraces u vars d).map (fun t => (t.name, t.unit)) =
      (vars.drop 1).map (fun p => (p.1, u p.2)) := by
  unfold mkTraces
  rw [List.map_map]
  have h1 : ((fun t : Trace => (t.name, t.unit)) ∘
      (fun p : Nat × (String × String) =>
        ({ name := p.2.1, data := d.getD p.1 [], unit := u p.2.2 } : Trace)))
      = (fun x : String × String => (x.1, u x.2)) ∘ Prod.snd := rfl
  rw [h1, ← List.map_map, List.map_drop, List.enum_map_snd]

set_option maxRecDepth 100000 in
/-- C7 counterexample: in the Format-A decoder a variable of declared type
`frequency` receives the empty unit, not `Hz` (the `"frequency" => "Hz"` arm
exists only in the Format-B decoder). -/
theorem format_a_frequency_unit_counterexample :
    (parseRawFile exFreqA).map (fun r => r.traces.map (fun t => t.unit))
      = Except.ok [""] ∧
    ((headerAOf exFreqA).vars.getD 1 ("", "")).2 = "frequency" ∧
    "" ≠ "Hz" := by
  refine ⟨by decide, by decide, by decide⟩

/-- C7 as amended: both decoders drop the axis (first) variable and assign
each remaining trace the unit determined by its declared type — but through
*different* maps: both send voltage→V, current→A, time→s and unknown types
to the empty string, while only the Format-B decoder sends frequency→Hz;
the Format-A decoder gives a frequency-typed variable the empty unit. -/
theorem decoder_unit_assignment :
    (∀ (data : List Nat) (r : SimulationResults),
      parseRawFile data = Except.ok r →
      r.traces.map (fun t => (t.name, t.unit)) =
        ((headerAOf data).vars.drop 1).map
          (fun p => (p.1, unitOfTypeA p.2))) ∧
    (∀ (data : List Nat) (r : SimulationResults),
      parseNgspiceRawFile data = Except.ok r →
      r.traces.map (fun t => (t.name, t.unit)) =
        ((ngHeaderOf data).vars.drop 1).map
          (fun p => (p.1, unitOfTypeNg p.2))) ∧
    unitOfTypeA "voltage" = "V" ∧ unitOfTypeA "current" = "A" ∧
    unitOfTypeA "time" = "s" ∧ unitOfTypeA "frequency" = "" ∧
    unitOfTypeNg "voltage" = "V" ∧ unitOfTypeNg "current" = "A" ∧
    unitOfTypeNg "time" = "s" ∧ unitOfTypeNg "frequency" = "Hz" := by
  refine ⟨?_, ?_, by decide, by decide, by decide, by decide, by decide,
    by decide, by decide, by decide⟩
  · intro data r h
    obtain ⟨allData, _, _, _, htr⟩ := parseRawFile_ok h
    rw [htr, mkTraces_map]
  · intro data r h
    obtain ⟨allData, _, _, htr⟩ := parseNgspiceRawFile_ok h
    rw [htr, mkTraces_map]

theorem filterMap_ite_length {α β : Type _} (P : α → Prop) [DecidablePred P]
    (g : α → Option β) (hg : ∀ a, P a → (g a).isSome = true) :
    ∀ l : List α,
      (l.filterMap (fun a => if P a then g a else none)).length =
        (l.filter (fun a => decide (P a))).length := by
  intro l
  induction l with
  | nil => rfl
  | cons a as ih =>
    rw [List.filterMap_cons, List.filter_cons]
    by_cases hPa : P a
    · have := hg a hPa
      cases hga : g a with
      | none => rw [hga] at this; cases this
      | some b => simp [hPa, hga, ih]
    · simp [hPa, ih]

theorem readNgBin_isSome {bd : List Nat} {numVars : Nat} {isComplex : Bool}
    {p v : Nat} (hv : v < numVars)
    (hb : p * (numVars * (if isComplex then 2 else 1) * 8) +
        numVars * (if isComplex then 2 else 1) * 8 ≤ bd.length) :
    (readNgBin bd numVars isComplex p v).isSome = true := by
  unfold readNgBin
  cases isComplex with
  | true =>
    simp only [if_true] at hb ⊢
    have e1 : (readF64 bd (p * (numVars * 2 * 8) + v * 16)).isSome = true := by
      unfold readF64
      rw [if_pos (by omega)]
      rfl
    have e2 : (readF64 bd (p * (numVars * 2 * 8) + v * 16 + 8)).isSome
        = true := by
      unfold readF64
      rw [if_pos (by omega)]
      rfl
    cases hr1 : readF64 bd (p * (numVars * 2 * 8) + v * 16) with
    | none => rw [hr1] at e1; cases e1
    | some re =>
      cases hr2 : readF64 bd (p * (numVars * 2 * 8) + v * 16 + 8) with
      | none => rw [hr2] at e2; cases e2
      | some im => simp [hr1, hr2]
  | false =>
    simp only [Bool.false_eq_true, if_false] at hb ⊢
    have e1 : (readF64 bd (p * (numVars * 1 * 8) + v * 8)).isSome = true := by
      unfold readF64
      rw [if_pos (by omega)]
      rfl
    cases hr1 : readF64 bd (p * (numVars * 1 * 8) + v * 8) with
    | none => rw [hr1] at e1; cases e1
    | some x => simp [hr1]

/-- Every column produced by the binary point loop has the same length: the
number of points whose full record fits in the buffer. -/
theorem ngBinColumns_length {bd : List Nat} {numVars numPoints : Nat}
    {isComplex : Bool} {c : List Val}
    (hc : c ∈ ngBinColumns bd numVars numPoints isComplex) :
    c.length = ((List.range numPoints).filter (fun p =>
      decide (p * (numVars * (if isComplex then 2 else 1) * 8) +
        numVars * (if isComplex then 2 else 1) * 8 ≤ bd.length))).length := by
  unfold ngBinColumns at hc
  obtain ⟨v, hvmem, rfl⟩ := List.mem_map.mp hc
  have hv : v < numVars := List.mem_range.mp hvmem
  exact filterMap_ite_length _ _ (fun p hp => readNgBin_isSome hv hp) _

theorem pushAt_length : ∀ (cols : List (List Val)) (i : Nat) (v : Val),
    (pushAt cols i v).length = cols.length := by
  intro cols
  induction cols with
  | nil => intro i v; rfl
  | cons c cs ih =>
    intro i v
    cases i with
    | zero => rfl
    | succ n => simp [pushAt, ih]

theorem colLen_pushAt : ∀ (cols : List (List Val)) (i : Nat) (v : Val)
    (j : Nat),
    colLen (pushAt cols i v) j =
      if i = j ∧ i < cols.length then colLen cols j + 1
      else colLen cols j := by
  intro cols
  induction cols with
  | nil =>
    intro i v j
    simp [pushAt, colLen]
  | cons c cs ih =>
    intro i v j
    cases i with
    | zero =>
      cases j with
      | zero => simp [pushAt, colLen]
      | succ k => simp [pushAt, colLen]
    | succ n =>
      cases j with
      | zero => simp [pushAt, colLen]
      | succ k =>
        have hgoal : colLen (c :: pushAt cs n v) (k + 1)
            = colLen (pushAt cs n v) k := by
          simp [colLen]
        show colLen (c :: pushAt cs n v) (k + 1) = _
        rw [hgoal, ih n v k]
        by_cases h1 : n = k ∧ n < cs.length
        · rw [if_pos h1, if_pos (by
            constructor
            · omega
            · simp only [List.length_cons]; omega)]
          simp [colLen]
        · rw [if_neg h1, if_neg (by
            intro hcon
            apply h1
            constructor
            · omega
            · have := hcon.2
              simp only [List.length_cons] at this
              omega)]
          simp [colLen]

theorem asciiInv_reset {cols : List (List Val)} {idx : Nat}
    (h : AsciiInv cols idx) : AsciiInv cols 0 :=
  ⟨h.1, fun h1 => absurd h1 (by omega)⟩

theorem asciiInv_push {cols : List (List Val)} {idx0 : Nat}
    (h : AsciiInv cols idx0) (v : Val) :
    AsciiInv (pushAt cols idx0 v) (idx0 + 1) := by
  obtain ⟨hmono, hstrict⟩ := h
  constructor
  · intro i h1 hi
    rw [pushAt_length] at hi
    rw [colLen_pushAt, colLen_pushAt]
    by_cases hij : idx0 = i
    · subst hij
      rw [if_pos ⟨rfl, by omega⟩, if_neg (by omega)]
      have := hstrict h1 hi
      omega
    · rw [if_neg (by tauto)]
      by_cases hij2 : idx0 = i - 1
      · by_cases hlen : idx0 < cols.length
        · rw [if_pos ⟨hij2, hlen⟩]
          have := hmono i h1 hi
          omega
        · rw [if_neg (by tauto)]
          exact hmono i h1 hi
      · rw [if_neg (by tauto)]
        exact hmono i h1 hi
  · intro _ hlen
    rw [pushAt_length] at hlen
    rw [colLen_pushAt, colLen_pushAt]
    rw [if_neg (by omega), if_pos ⟨by omega, by omega⟩]
    have := hmono (idx0 + 1) (by omega) hlen
    omega

theorem ngAsciiStep_inv (isComplex : Bool) (acc : List (List Val) × Nat)
    (line : String) (h : AsciiInv acc.1 acc.2) :
    AsciiInv (ngAsciiStep isComplex acc line).1
      (ngAsciiStep isComplex acc line).2 := by
  have h0 : AsciiInv acc.1 0 := asciiInv_reset h
  by_cases hnp : ((rustTrim line).data.contains '\t' &&
      (((rustTrim line).data.head?.map Char.isDigit).getD false)) = true
  · unfold ngAsciiStep
    simp only [if_pos hnp]
    repeat' split
    all_goals first
      | exact h
      | exact h0
      | exact asciiInv_push h0 _
  · unfold ngAsciiStep
    simp only [if_neg hnp]
    repeat' split
    all_goals first
      | exact h
      | exact asciiInv_push h _

theorem foldl_asciiStep_inv (isComplex : Bool) :
    ∀ (lines : List String) (acc : List (List Val) × Nat),
      AsciiInv acc.1 acc.2 →
      AsciiInv (lines.foldl (ngAsciiStep isComplex) acc).1
        (lines.foldl (ngAsciiStep isComplex) acc).2 := by
  intro lines
  induction lines with
  | nil => intro acc h; exact h
  | cons l ls ih =>
    intro acc h
    exact ih _ (ngAsciiStep_inv _ _ _ h)

theorem colLen_replicate (n i : Nat) : colLen (List.replicate n ([] : List Val)) i = 0 := by
  unfold colLen
  by_cases hi : i < n
  · rw [List.getD_eq_getElem _ _ (by simpa using hi)]
    simp
  · rw [List.getD_eq_default _ _ (by simpa using Nat.le_of_not_lt hi)]
    rfl

theorem asciiInv_init (n : Nat) : AsciiInv (List.replicate n []) 0 :=
  ⟨fun i _ _ => by simp [colLen_replicate], fun h1 => absurd h1 (by omega)⟩

theorem asciiInv_le {cols : List (List Val)} {idx : Nat}
    (h : AsciiInv cols idx) : ∀ i, colLen cols i ≤ colLen cols 0 := by
  intro i
  induction i with
  | zero => exact Nat.le_refl _
  | succ k ihk =>
    by_cases hk : k + 1 < cols.length
    · exact Nat.le_trans (h.1 (k + 1) (by omega) hk) ihk
    · rw [show colLen cols (k + 1) = 0 from by
        unfold colLen
        rw [List.getD_eq_default _ _ (by omega)]
        rfl]
      exact Nat.zero_le _

/-- In the ASCII fold, no column ever grows beyond column 0 (the axis). -/
theorem ngAsciiColumns_le (valuesStr : String) (numVars : Nat)
    (isComplex : Bool) :
    ∀ i, colLen (ngAsciiColumns valuesStr numVars isComplex) i ≤
      colLen (ngAsciiColumns valuesStr numVars isComplex) 0 := by
  have h := foldl_asciiStep_inv isComplex (rustLines valuesStr)
    (List.replicate numVars [], 0) (asciiInv_init numVars)
  exact asciiInv_le h

set_option maxRecDepth 100000 in
/-- C5 counterexample: a Format-B ASCII artifact that ends in the middle of
its single point decodes to `Ok` with a trace of length 0 against an axis of
length 1 — a partially populated result. -/
theorem ngspice_partial_trace_counterexample :
    parseNgspiceRawFile exPartialNg = Except.ok exPartialNgResult ∧
    exPartialNgResult.time.length = 1 ∧
    exPartialNgResult.traces.map (fun t => t.data.length) = [0] ∧
    (0 : Nat) ≠ 1 :=
  ⟨by decide, by decide, by decide, by decide⟩

/-- C5 as amended: on every `Ok` result of either decoder, every trace's
data length is at most the axis length.  Equality can fail: the ASCII path
of the Format-B decoder returns a shorter trace when the file ends mid-point
(and the Format-A decoder returns empty traces for variable lines beyond the
declared count), so results can be partially populated. -/
theorem decoded_trace_length_le_axis :
    (∀ (data : List Nat) (r : SimulationResults),
      parseRawFile data = Except.ok r →
      ∀ t ∈ r.traces, t.data.length ≤ r.time.length) ∧
    (∀ (data : List Nat) (r : SimulationResults),
      parseNgspiceRawFile data = Except.ok r →
      ∀ t ∈ r.traces, t.data.length ≤ r.time.length) := by
  constructor
  · intro data r h t ht
    obtain ⟨allData, _, hcols, htime, htr⟩ := parseRawFile_ok h
    rw [htr] at ht
    unfold mkTraces at ht
    obtain ⟨p, _, rfl⟩ := List.mem_map.mp ht
    rw [htime]
    show (allData.getD p.1 []).length ≤ (allData.getD 0 []).length
    by_cases h0 : 0 < allData.length
    · by_cases hp1 : p.1 < allData.length
      · rw [List.getD_eq_getElem _ _ hp1, List.getD_eq_getElem _ _ h0,
          hcols _ (List.getElem_mem hp1), hcols _ (List.getElem_mem h0)]
      · rw [List.getD_eq_default _ _ (Nat.le_of_not_lt hp1)]
        exact Nat.zero_le _
    · rw [List.getD_eq_default _ _ (by omega)]
      exact Nat.zero_le _
  · intro data r h t ht
    obtain ⟨allData, hsrc, htime, htr⟩ := parseNgspiceRawFile_ok h
    rw [htr] at ht
    unfold mkTraces at ht
    obtain ⟨p, _, rfl⟩ := List.mem_map.mp ht
    rw [htime]
    show (allData.getD p.1 []).length ≤ (allData.getD 0 []).length
    rcases hsrc with hbin | ⟨cps, _, hascii⟩
    · subst hbin
      by_cases h0 : 0 < (ngBinColumns (data.drop (ngHeaderOf data).dataStart)
          (ngHeaderOf data).numVars (ngHeaderOf data).numPoints
          (ngHeaderOf data).isComplex).length
      · by_cases hp1 : p.1 < (ngBinColumns
            (data.drop (ngHeaderOf data).dataStart)
            (ngHeaderOf data).numVars (ngHeaderOf data).numPoints
            (ngHeaderOf data).isComplex).length
        · rw [List.getD_eq_getElem _ _ hp1, List.getD_eq_getElem _ _ h0,
            ngBinColumns_length (List.getElem_mem hp1),
            ngBinColumns_length (List.getElem_mem h0)]
        · rw [List.getD_eq_default _ _ (Nat.le_of_not_lt hp1)]
          exact Nat.zero_le _
      · rw [List.getD_eq_default _ _ (by omega)]
        exact Nat.zero_le _
    · subst hascii
      exact ngAsciiColumns_le (scalarsToStr cps) (ngHeaderOf data).numVars
        (ngHeaderOf data).isComplex p.1

set_option maxRecDepth 100000 in
/-- C5 witness: the amended bound at the concrete artifact `exPartialNg`. -/
theorem decoded_trace_length_le_axis_witness :
    parseNgspiceRawFile exPartialNg = Except.ok exPartialNgResult ∧
    ({ name := "v(out)", data := [], unit := "V" } : Trace)
      ∈ exPartialNgResult.traces ∧
    ({ name := "v(out)", data := [], unit := "V" } : Trace).data.length ≤
      exPartialNgResult.time.length :=
  ⟨by decide, by decide,
   decoded_trace_length_le_axis.2 exPartialNg exPartialNgResult (by decide)
     _ (by decide)⟩

set_option maxRecDepth 100000 in
/-- C7 witness: the amended statement at the concrete artifact `exFreqA`. -/
theorem decoder_unit_assignment_witness :
    parseRawFile exFreqA = Except.ok exFreqAResult ∧
    exFreqAResult.traces.map (fun t => (t.name, t.unit)) =
      ((headerAOf exFreqA).vars.drop 1).map
        (fun p => (p.1, unitOfTypeA p.2)) :=
  ⟨by decide, decoder_unit_assignment.1 exFreqA exFreqAResult (by decide)⟩

end Kelicad
